import Mathlib

set_option maxHeartbeats 1000000

/-! Verification of the versioned schema-migration engine of the goUserAPI
repository (`internal/database/migrations.go`) against its natural-language
specification.

The Go code is shallowly embedded as follows.

* Strings are Lean `String`s.  Go's byte-wise string primitives
  (`strings.Contains`, `strings.HasSuffix`, `strings.TrimSuffix` and the
  built-in `<` comparison) are re-implemented over the character list of a
  `String`; on the ASCII filenames and versions the engine works with,
  code-point order and byte order coincide.
* The migrations directory is a value of type `Directory`: the listing that
  `os.ReadDir` would return, each entry carrying its name, its directory flag
  and (for files) its content, so `os.ReadFile` becomes a lookup.
* The database is a `DBState`: the `schema_migrations` ledger table (one
  `LedgerRow` per applied version) plus `schemaLog`, an append-only journal of
  every committed SQL body, which stands for the schema effects of executed
  scripts.  Whether an arbitrary SQL body executes successfully is beyond a
  shallow embedding, so the functions are parameterised by an oracle
  `sqlOk : String → Bool`; likewise the SHA-256 of `calculateChecksum` is kept
  abstract as a parameter `chk : String → String`.
* A transaction is modelled by building the new state functionally and only
  returning it on commit: every error path returns the caller's original
  state, which is exactly what `defer tx.Rollback` guarantees in the source.
* Errors returned by the Go functions are modelled by the inductive `MigErr`,
  one constructor per `fmt.Errorf` site reached by the modelled operations,
  carrying the identifying data (version, checksums, filename) that the code
  reports at that site. -/

/-! ## Byte-level string primitives (embedding of the `strings` package) -/

/-- Decides whether `p` is a prefix of `l` (character by character). -/
def hasPrefixC : List Char → List Char → Bool
  | [], _ => true
  | _ :: _, [] => false
  | c :: cs, d :: ds => c == d && hasPrefixC cs ds

/-- Decides whether `p` occurs as a contiguous substring of `l`. -/
def hasSubstrC (p : List Char) : List Char → Bool
  | [] => p.isEmpty
  | c :: rest => hasPrefixC p (c :: rest) || hasSubstrC p rest

/-- Embedding of Go `strings.Contains s pat`. -/
def strContains (s pat : String) : Bool := hasSubstrC pat.data s.data

/-- Embedding of Go `strings.HasSuffix s suf`. -/
def strEndsWith (s suf : String) : Bool :=
  hasPrefixC suf.data.reverse s.data.reverse

/-- Embedding of Go `strings.TrimSuffix s suf`. -/
def trimSuffix (s suf : String) : String :=
  if strEndsWith s suf then ⟨s.data.take (s.data.length - suf.data.length)⟩ else s

/-- Lexicographic strict order on character lists, the embedding of Go's
byte-wise `<` on strings (they agree because UTF-8 preserves code-point
order). -/
def strLtL : List Char → List Char → Bool
  | [], [] => false
  | [], _ :: _ => true
  | _ :: _, [] => false
  | a :: as, b :: bs =>
    if a.toNat < b.toNat then true
    else if a.toNat = b.toNat then strLtL as bs
    else false

/-- Embedding of Go `a < b` on strings. -/
def strLt (a b : String) : Bool := strLtL a.data b.data

/-- Embedding of Go `a <= b` on strings (i.e. `!(b < a)`). -/
def strLe (a b : String) : Bool := !(strLt b a)

/-- Membership test in a list of strings, the embedding of a lookup in a Go
`map[string]bool` built by inserting every element of the list. -/
def memStr (v : String) : List String → Bool
  | [] => false
  | w :: ws => v == w || memStr v ws

/-! ## Lemmas about the string primitives -/

theorem memStr_iff_mem {v : String} : ∀ {l : List String}, memStr v l = true ↔ v ∈ l := by
  intro l
  induction l with
  | nil => simp [memStr]
  | cons w ws ih => simp [memStr, ih]

theorem str_ext : ∀ {a b : String}, a.data = b.data → a = b := by
  intro a b h
  exact congrArg String.mk h

theorem char_toNat_inj {a b : Char} (h : a.toNat = b.toNat) : a = b := by
  rw [← Char.ofNat_toNat a, h, Char.ofNat_toNat]

theorem strLtL_irrefl : ∀ l, strLtL l l = false := by
  intro l
  induction l with
  | nil => rfl
  | cons a as ih => simp [strLtL, ih]

theorem strLtL_trichot : ∀ l m, strLtL l m = true ∨ strLtL m l = true ∨ l = m := by
  intro l
  induction l with
  | nil => intro m; cases m <;> simp [strLtL]
  | cons a as ih =>
    intro m
    cases m with
    | nil => simp [strLtL]
    | cons b bs =>
      rcases Nat.lt_trichotomy a.toNat b.toNat with h | h | h
      · left; simp [strLtL, h]
      · rcases ih bs with h2 | h2 | h2
        · left; simp [strLtL, h, h2]
        · right; left; simp [strLtL, h.symm, h2, Nat.lt_irrefl]
        · right; right; rw [char_toNat_inj h, h2]
      · right; left; simp [strLtL, h]

theorem strLtL_trans : ∀ l m k, strLtL l m = true → strLtL m k = true → strLtL l k = true := by
  intro l
  induction l with
  | nil =>
    intro m k h1 h2
    cases m with
    | nil => simp [strLtL] at h1
    | cons b bs =>
      cases k with
      | nil => simp [strLtL] at h2
      | cons c cs => simp [strLtL]
  | cons a as ih =>
    intro m k h1 h2
    cases m with
    | nil => simp [strLtL] at h1
    | cons b bs =>
      cases k with
      | nil => simp [strLtL] at h2
      | cons c cs =>
        simp only [strLtL] at h1 h2 ⊢
        split at h1
        · rename_i hab
          split at h2
          · rename_i hbc
            simp [Nat.lt_trans hab hbc]
          · split at h2
            · rename_i hbc
              simp [hbc ▸ hab]
            · simp at h2
        · split at h1
          · rename_i hab
            split at h2
            · rename_i hbc
              simp [hab ▸ hbc]
            · split at h2
              · rename_i hbc
                rw [hab, hbc]
                simp only [Nat.lt_irrefl, if_false, if_pos rfl]
                exact ih bs cs h1 h2
              · simp at h2
          · simp at h1

theorem strLt_irrefl (a : String) : strLt a a = false := strLtL_irrefl a.data

theorem strLt_trans {a b c : String} (h1 : strLt a b = true) (h2 : strLt b c = true) :
    strLt a c = true := strLtL_trans a.data b.data c.data h1 h2

theorem strLt_trichot (a b : String) : strLt a b = true ∨ strLt b a = true ∨ a = b := by
  rcases strLtL_trichot a.data b.data with h | h | h
  · exact Or.inl h
  · exact Or.inr (Or.inl h)
  · exact Or.inr (Or.inr (str_ext h))

theorem strLt_of_strLe_of_ne {a b : String} (h1 : strLe a b = true) (h2 : a ≠ b) :
    strLt a b = true := by
  rcases strLt_trichot a b with h | h | h
  · exact h
  · simp [strLe, h] at h1
  · exact absurd h h2

theorem strLe_trans {a b c : String} (h1 : strLe a b = true) (h2 : strLe b c = true) :
    strLe a c = true := by
  simp only [strLe, Bool.not_eq_true'] at h1 h2 ⊢
  by_contra h
  rw [Bool.not_eq_false] at h
  rcases strLt_trichot a b with hab | hab | hab
  · rcases strLt_trichot b c with hbc | hbc | hbc
    · exact absurd (strLt_trans (strLt_trans hab hbc) h) (by simp [strLt_irrefl])
    · exact absurd hbc (by simp [h2])
    · exact absurd (strLt_trans hab (hbc ▸ h)) (by simp [strLt_irrefl])
  · exact absurd hab (by simp [h1])
  · rcases strLt_trichot b c with hbc | hbc | hbc
    · exact absurd (strLt_trans hbc (hab ▸ h)) (by simp [strLt_irrefl])
    · exact absurd hbc (by simp [h2])
    · exact absurd (hab.trans hbc ▸ h) (by simp [strLt_irrefl])

theorem strLe_total (a b : String) : strLe a b = true ∨ strLe b a = true := by
  rcases strLt_trichot a b with h | h | h
  · left
    simp only [strLe, Bool.not_eq_true']
    by_contra hfalse
    rw [Bool.not_eq_false] at hfalse
    exact absurd (strLt_trans h hfalse) (by simp [strLt_irrefl])
  · right
    simp only [strLe, Bool.not_eq_true']
    by_contra hfalse
    rw [Bool.not_eq_false] at hfalse
    exact absurd (strLt_trans h hfalse) (by simp [strLt_irrefl])
  · left; simp [strLe, h, strLt_irrefl]

theorem hasPrefixC_append : ∀ (p l1 l2 : List Char),
    hasPrefixC p l1 = true → hasPrefixC p (l1 ++ l2) = true := by
  intro p
  induction p with
  | nil => intro l1 l2 _; rfl
  | cons c cs ih =>
    intro l1 l2 h
    cases l1 with
    | nil => simp [hasPrefixC] at h
    | cons d ds =>
      simp only [hasPrefixC, Bool.and_eq_true] at h ⊢
      exact ⟨h.1, ih ds l2 h.2⟩

theorem hasSubstrC_nil_pat : ∀ l, hasSubstrC [] l = true := by
  intro l
  cases l with
  | nil => rfl
  | cons c rest => simp [hasSubstrC, hasPrefixC]

theorem hasSubstrC_append : ∀ (p l1 l2 : List Char),
    hasSubstrC p l1 = true → hasSubstrC p (l1 ++ l2) = true := by
  intro p l1
  induction l1 with
  | nil =>
    intro l2 h
    simp only [hasSubstrC, List.isEmpty_iff] at h
    subst h
    simpa using hasSubstrC_nil_pat l2
  | cons c rest ih =>
    intro l2 h
    simp only [hasSubstrC, Bool.or_eq_true] at h
    rcases h with h | h
    · simp only [List.cons_append, hasSubstrC, Bool.or_eq_true]
      exact Or.inl (hasPrefixC_append p (c :: rest) l2 h)
    · simp only [List.cons_append, hasSubstrC, Bool.or_eq_true]
      exact Or.inr (ih l2 h)

theorem hasPrefixC_iff_append : ∀ (p l : List Char),
    hasPrefixC p l = true ↔ ∃ t, l = p ++ t := by
  intro p
  induction p with
  | nil => intro l; simp [hasPrefixC]
  | cons c cs ih =>
    intro l
    cases l with
    | nil => simp [hasPrefixC]
    | cons d ds =>
      simp only [hasPrefixC, Bool.and_eq_true, beq_iff_eq, ih ds, List.cons_append,
        List.cons.injEq]
      constructor
      · rintro ⟨h1, t, h2⟩
        exact ⟨t, h1.symm, h2⟩
      · rintro ⟨t, h1, h2⟩
        exact ⟨h1.symm, t, h2⟩

theorem strEndsWith_data {s suf : String} (h : strEndsWith s suf = true) :
    ∃ t, s.data = t ++ suf.data := by
  rw [strEndsWith, hasPrefixC_iff_append] at h
  obtain ⟨t, ht⟩ := h
  refine ⟨t.reverse, ?_⟩
  have := congrArg List.reverse ht
  simpa using this

theorem trimSuffix_data {s suf : String} (h : strEndsWith s suf = true) :
    (trimSuffix s suf).data ++ suf.data = s.data := by
  obtain ⟨t, ht⟩ := strEndsWith_data h
  unfold trimSuffix
  rw [if_pos h]
  have hlen : s.data.length - suf.data.length = t.length := by
    rw [ht, List.length_append]
    omega
  show s.data.take (s.data.length - suf.data.length) ++ suf.data = s.data
  rw [hlen, ht, List.take_left]

theorem strContains_trimSuffix {s suf pat : String}
    (h : strContains (trimSuffix s suf) pat = true) : strContains s pat = true := by
  by_cases hend : strEndsWith s suf = true
  · have hdata := trimSuffix_data hend
    rw [strContains] at h ⊢
    rw [← hdata]
    exact hasSubstrC_append _ _ _ h
  · rw [trimSuffix, if_neg hend] at h
    exact h

/-! ## Data model

`Migration` mirrors the Go struct of `migrations.go`; `LedgerRow` is one row of
the `schema_migrations` table (the server-assigned `executed_at` timestamp is
not modelled: no claim depends on its value); `FSEntry` is one entry of the
`os.ReadDir` listing of the migrations directory; `DBState` is the database. -/

/-- Embedding of the Go struct `Migration`. -/
structure Migration where
  Version : String
  Filename : String
  SQLContent : String
  Checksum : String
deriving DecidableEq, Repr

/-- One row of the `schema_migrations` ledger table (`version` is the primary
key; `checksum` is the checksum recorded at application time). -/
structure LedgerRow where
  version : String
  checksum : String
deriving DecidableEq, Repr

/-- One entry of the migrations directory listing. -/
structure FSEntry where
  name : String
  isDir : Bool
  content : String
deriving DecidableEq, Repr

/-- The migrations directory as `os.ReadDir` would list it. -/
abbrev Directory := List FSEntry

/-- The database: the `schema_migrations` table (rows in insertion order) and
an append-only journal of every committed SQL body, standing for the schema
effects of executed scripts. -/
structure DBState where
  ledger : List LedgerRow
  schemaLog : List String
deriving DecidableEq, Repr

/-- Errors surfaced by the engine, one constructor per `fmt.Errorf` site of the
modelled operations, carrying the identifying data (version, both checksums,
filename) that the code reports there. -/
inductive MigErr where
  /-- `failed to execute migration SQL` inside `executeMigration`. -/
  | sqlError (version : String)
  /-- `failed to record migration`: the ledger `INSERT` hit the primary key. -/
  | recordError (version : String)
  /-- `migration <v> found in database but not in migrations directory`. -/
  | orphanedEntry (version : String)
  /-- `checksum mismatch` for a version, with the checksum stored in the
  database and the current checksum of the file (both are reported). -/
  | checksumMismatch (version dbChecksum fileChecksum : String)
  /-- `failed to read rollback file <name>`. -/
  | readFileError (filename : String)
  /-- `failed to execute rollback SQL` for a version. -/
  | downSqlError (version : String)
deriving DecidableEq, Repr

deriving instance DecidableEq for Except

/-! ## Primitive database and filesystem steps -/

/-- Executing one SQL body: the oracle `sqlOk` decides whether the body is
valid; on success the body is appended to the journal. -/
def execSQL (sqlOk : String → Bool) (sql : String) (st : DBState) : Option DBState :=
  if sqlOk sql then some { st with schemaLog := st.schemaLog ++ [sql] } else none

/-- Embedding of `INSERT INTO schema_migrations (version, checksum) VALUES
($1, $2)`: `version` is the primary key, so the insert fails (and changes
nothing) when a row with that version already exists. -/
def insertLedger (version checksum : String) (st : DBState) : Option DBState :=
  if st.ledger.any fun row => row.version == version then none
  else some { st with ledger := st.ledger ++ [⟨version, checksum⟩] }

/-- Embedding of `DELETE FROM schema_migrations WHERE version = $1` (succeeds
even when zero rows match). -/
def deleteLedger (version : String) (st : DBState) : DBState :=
  { st with ledger := st.ledger.filter fun row => !(row.version == version) }

/-- Embedding of `os.ReadFile` on the migrations directory: the content of the
first non-directory entry with the given name, if any. -/
def readFile (dir : Directory) (filename : String) : Option String :=
  (dir.find? fun entry => entry.name == filename && !entry.isDir).map (·.content)

/-! ## Catalog loading (`loadMigrationFiles`) -/

/-- Relation used to sort the catalog ascending by version
(`migrations[i].Version < migrations[j].Version` in the source). -/
def migLe (a b : Migration) : Prop := strLe a.Version b.Version = true

/-- Relation used by `RunDownMigrations` to re-sort the catalog descending by
version (`migrations[i].Version > migrations[j].Version` in the source). -/
def migGe (a b : Migration) : Prop := strLe b.Version a.Version = true

instance : DecidableRel migLe := fun _ _ => decEq _ _

instance : DecidableRel migGe := fun _ _ => decEq _ _

instance : IsTrans Migration migLe := ⟨fun _ _ _ => strLe_trans⟩

instance : IsTrans Migration migGe := ⟨fun _ _ _ h1 h2 => strLe_trans h2 h1⟩

instance : IsTotal Migration migLe := ⟨fun a b => strLe_total a.Version b.Version⟩

instance : IsTotal Migration migGe := ⟨fun a b => strLe_total b.Version a.Version⟩

/-- Embedding of `loadMigrationFiles`: keep the non-directory entries whose
name ends in `.sql` and does not contain `_down_`; the version is the filename
with the `.sql` suffix trimmed, the checksum is the hash of the content; the
result is sorted ascending by version. -/
def loadMigrationFiles (chk : String → String) (dir : Directory) : List Migration :=
  let migrations := dir.filterMap fun entry =>
    if entry.isDir || !(strEndsWith entry.name (".sql")) then none
    else if strContains entry.name ("_down_") then none
    else
      some { Version := trimSuffix entry.name (".sql"), Filename := entry.name,
             SQLContent := entry.content, Checksum := chk entry.content }
  List.insertionSort migLe migrations

/-! ## Ledger reads -/

/-- Embedding of `getExecutedMigrations` (`SELECT version FROM
schema_migrations` into a `map[string]bool`). -/
def getExecutedMigrations (st : DBState) : List String :=
  st.ledger.map (·.version)

/-- Embedding of `isMigrationExecuted`. -/
def isMigrationExecuted (version : String) (executed : List String) : Bool :=
  memStr version executed

/-! ## Forward application (`executeMigration`, `RunMigrations`) -/

/-- Embedding of `executeMigration`: one transaction that executes the script
body and inserts the ledger row; any failure rolls the transaction back, so
the caller's state is unchanged on error. -/
def executeMigration (sqlOk : String → Bool) (migration : Migration) (st : DBState) :
    Except MigErr DBState :=
  match execSQL sqlOk migration.SQLContent st with
  | none => .error (.sqlError migration.Version)
  | some st1 =>
    match insertLedger migration.Version migration.Checksum st1 with
    | none => .error (.recordError migration.Version)
    | some st2 => .ok st2

/-- The pending loop of `RunMigrations`: walk the catalog in order, skip the
versions already in `executed`, apply the rest one by one, and abort the whole
run on the first failure, keeping the states committed so far. -/
def runPendingMigrations (sqlOk : String → Bool) :
    List Migration → List String → DBState → Nat → DBState × Except MigErr Nat
  | [], _, st, count => (st, .ok count)
  | migration :: rest, executed, st, count =>
    if isMigrationExecuted migration.Version executed then
      runPendingMigrations sqlOk rest executed st count
    else
      match executeMigration sqlOk migration st with
      | .error e => (st, .error e)
      | .ok st1 => runPendingMigrations sqlOk rest executed st1 (count + 1)

/-- The sentinel checksum backfilled into ledger rows that pre-date
checksumming. -/
def legacySentinel : String := "legacy_migration_no_checksum_available"

/-- Embedding of the lookup of the catalog script matching a ledger row inside
`verifyMigrationIntegrity`. -/
def findCurrentMigration (version : String) (migrations : List Migration) : Option Migration :=
  migrations.find? fun mig => mig.Version == version

/-- Relation used to embed `SELECT version, checksum FROM schema_migrations
ORDER BY version`. -/
def rowLe (a b : LedgerRow) : Prop := strLe a.version b.version = true

instance : DecidableRel rowLe := fun _ _ => decEq _ _

instance : IsTrans LedgerRow rowLe := ⟨fun _ _ _ => strLe_trans⟩

instance : IsTotal LedgerRow rowLe := ⟨fun a b => strLe_total a.version b.version⟩

/-- The body of the verification loop of `verifyMigrationIntegrity` for one
ledger row: find the matching catalog script (orphaned-entry error when
absent); a row carrying the legacy sentinel is skipped, otherwise differing
checksums are a mismatch error reporting the stored and the current checksum. -/
def verifyOneRow (migrations : List Migration) (row : LedgerRow) : Option MigErr :=
  match findCurrentMigration row.version migrations with
  | none => some (.orphanedEntry row.version)
  | some current =>
    if row.checksum == legacySentinel then none
    else if current.Checksum != row.checksum then
      some (.checksumMismatch row.version row.checksum current.Checksum)
    else none

/-- The verification loop of `verifyMigrationIntegrity` over the ledger rows:
the first offending row's error is returned. -/
def verifyRows (migrations : List Migration) : List LedgerRow → Option MigErr
  | [] => none
  | row :: rest =>
    match verifyOneRow migrations row with
    | some e => some e
    | none => verifyRows migrations rest

/-- Embedding of `verifyMigrationIntegrity`: read every ledger row ordered by
version and check each against the catalog. -/
def verifyMigrationIntegrity (migrations : List Migration) (st : DBState) : Option MigErr :=
  verifyRows migrations (List.insertionSort rowLe st.ledger)

/-- Embedding of `RunMigrations` (the spec's `applyPending`): ensure the
ledger table exists (always true in this model), load the catalog and the
applied set, run the pending loop, then verify integrity; the final state is
returned together with either the number of migrations applied or the first
error. `createMigrationsTable` only issues `IF NOT EXISTS`/backfill DDL
against the ledger table itself, which the model keeps implicit. -/
def RunMigrations (chk : String → String) (sqlOk : String → Bool) (dir : Directory)
    (st : DBState) : DBState × Except MigErr Nat :=
  let migrations := loadMigrationFiles chk dir
  let executed := getExecutedMigrations st
  match runPendingMigrations sqlOk migrations executed st 0 with
  | (st1, .error e) => (st1, .error e)
  | (st1, .ok count) =>
    match verifyMigrationIntegrity migrations st1 with
    | some e => (st1, .error e)
    | none => (st1, .ok count)

/-! ## Rollback (`RollbackLastMigration`, `RunDownMigrations`) -/

/-- Embedding of the down-script lookup shared by `RollbackLastMigration` and
`RunDownMigrations`: a hardcoded switch over the three built-in seed versions;
otherwise scan the directory for the first entry whose name contains both
`_down_` and the version string; if none is found, synthesize
`<version>_down.sql`. -/
def resolveDownFilename (dir : Directory) (version : String) : String :=
  if version == "001_create_schema_migrations_table" then
    "001_down_create_schema_migrations_table.sql"
  else if version == "002_create_users_table" then
    "002_down_create_users_table.sql"
  else if version == "003_create_indexes" then
    "003_down_create_indexes.sql"
  else
    match dir.find? fun file => strContains file.name ("_down_") && strContains file.name version with
    | some file => file.name
    | none => version ++ "_down.sql"

/-- One rollback transaction, shared verbatim by `RollbackLastMigration` and
the loop body of `RunDownMigrations`: resolve and read the down script,
execute its body and delete the ledger row in one transaction; any failure
rolls back, leaving the caller's state unchanged. -/
def rollbackOneMigration (sqlOk : String → Bool) (dir : Directory) (version : String)
    (st : DBState) : Except MigErr DBState :=
  match readFile dir (resolveDownFilename dir version) with
  | none => .error (.readFileError (resolveDownFilename dir version))
  | some content =>
    match execSQL sqlOk content st with
    | none => .error (.downSqlError version)
    | some st1 => .ok (deleteLedger version st1)

/-- Embedding of the selection of the most recent migration in
`RollbackLastMigration`: the running maximum (under Go string `<`) over the
applied versions, starting from the empty string. -/
def lastAppliedVersion (executed : List String) : String :=
  executed.foldl (fun acc v => if strLt acc v then v else acc) ("")

/-- Embedding of `RollbackLastMigration` (the spec's `rollbackLast`): no-op
success on an empty applied set; otherwise roll back the lexically greatest
applied version in a single transaction. -/
def RollbackLastMigration (sqlOk : String → Bool) (dir : Directory) (st : DBState) :
    DBState × Option MigErr :=
  let executed := getExecutedMigrations st
  if executed.isEmpty then (st, none)
  else
    let lastMigration := lastAppliedVersion executed
    match rollbackOneMigration sqlOk dir lastMigration st with
    | .error e => (st, some e)
    | .ok st1 => (st1, none)

/-- The loop of `RunDownMigrations` over the descending catalog: versions that
carry the down marker are skipped (none can, coming from the catalog), and a
version is rolled back when it is in the applied set and strictly greater than
the target; the first failure aborts the rest of the sequence. -/
def runDownLoop (sqlOk : String → Bool) (dir : Directory) (executed : List String)
    (target : String) : List Migration → DBState → Nat → DBState × Except MigErr Nat
  | [], st, count => (st, .ok count)
  | migration :: rest, st, count =>
    if !(strContains migration.Version ("_down_")) then
      if isMigrationExecuted migration.Version executed && strLt target migration.Version then
        match rollbackOneMigration sqlOk dir migration.Version st with
        | .error e => (st, .error e)
        | .ok st1 => runDownLoop sqlOk dir executed target rest st1 (count + 1)
      else runDownLoop sqlOk dir executed target rest st count
    else runDownLoop sqlOk dir executed target rest st count

/-- Embedding of `RunDownMigrations` (the spec's `rollbackTo`): load the
applied set and the catalog, re-sort the catalog descending by version, and
roll back each applied version above the target in its own transaction. -/
def RunDownMigrations (chk : String → String) (sqlOk : String → Bool) (dir : Directory)
    (target : String) (st : DBState) : DBState × Except MigErr Nat :=
  let executed := getExecutedMigrations st
  let migrationFiles := List.insertionSort migGe (loadMigrationFiles chk dir)
  runDownLoop sqlOk dir executed target migrationFiles st 0

/-- The pending set of a run: the catalog scripts whose version is not in the
applied set, in catalog (ascending) order — exactly the scripts the pending
loop of `RunMigrations` applies. -/
def pendingMigrations (chk : String → String) (dir : Directory) (st : DBState) :
    List Migration :=
  (loadMigrationFiles chk dir).filter fun m =>
    !(isMigrationExecuted m.Version (getExecutedMigrations st))

/-! ## Lemmas about the primitive steps -/

theorem insertLedger_of_not_mem {st : DBState} {v c : String}
    (h : v ∉ st.ledger.map (·.version)) :
    insertLedger v c st = some { st with ledger := st.ledger ++ [⟨v, c⟩] } := by
  unfold insertLedger
  rw [if_neg]
  intro hc
  rw [List.any_eq_true] at hc
  obtain ⟨row, hrow, hv⟩ := hc
  exact h (List.mem_map.mpr ⟨row, hrow, eq_of_beq hv⟩)

theorem insertLedger_of_mem {st : DBState} {v c : String}
    (h : v ∈ st.ledger.map (·.version)) :
    insertLedger v c st = none := by
  unfold insertLedger
  rw [if_pos]
  rw [List.any_eq_true]
  obtain ⟨row, hrow, hv⟩ := List.mem_map.mp h
  exact ⟨row, hrow, beq_iff_eq.mpr hv⟩

theorem execSQL_of_ok {sqlOk : String → Bool} {sql : String} {st : DBState}
    (h : sqlOk sql = true) :
    execSQL sqlOk sql st = some { st with schemaLog := st.schemaLog ++ [sql] } := by
  unfold execSQL
  rw [if_pos h]

theorem execSQL_of_fail {sqlOk : String → Bool} {sql : String} {st : DBState}
    (h : sqlOk sql = false) :
    execSQL sqlOk sql st = none := by
  unfold execSQL
  rw [if_neg (by simp [h])]

theorem executeMigration_ok {sqlOk : String → Bool} {m : Migration} {st : DBState}
    (hsql : sqlOk m.SQLContent = true) (hmem : m.Version ∉ st.ledger.map (·.version)) :
    executeMigration sqlOk m st =
      .ok ⟨st.ledger ++ [⟨m.Version, m.Checksum⟩], st.schemaLog ++ [m.SQLContent]⟩ := by
  have h2 : insertLedger m.Version m.Checksum { st with schemaLog := st.schemaLog ++ [m.SQLContent] } =
      some ⟨st.ledger ++ [⟨m.Version, m.Checksum⟩], st.schemaLog ++ [m.SQLContent]⟩ :=
    insertLedger_of_not_mem hmem
  simp only [executeMigration, execSQL_of_ok hsql, h2]

theorem executeMigration_sql_fail {sqlOk : String → Bool} {m : Migration} {st : DBState}
    (hsql : sqlOk m.SQLContent = false) :
    executeMigration sqlOk m st = .error (.sqlError m.Version) := by
  unfold executeMigration
  rw [execSQL_of_fail hsql]

theorem executeMigration_dup {sqlOk : String → Bool} {m : Migration} {st : DBState}
    (hsql : sqlOk m.SQLContent = true) (hmem : m.Version ∈ st.ledger.map (·.version)) :
    executeMigration sqlOk m st = .error (.recordError m.Version) := by
  have h2 : insertLedger m.Version m.Checksum { st with schemaLog := st.schemaLog ++ [m.SQLContent] } = none :=
    insertLedger_of_mem hmem
  simp only [executeMigration, execSQL_of_ok hsql, h2]

theorem readFile_eq_some_iff {dir : Directory} {filename content : String} :
    readFile dir filename = some content ↔
      ∃ e, dir.find? (fun entry => entry.name == filename && !entry.isDir) = some e ∧
        e.content = content := by
  unfold readFile
  cases hf : dir.find? fun entry => entry.name == filename && !entry.isDir with
  | none => simp
  | some e => simp [hf]

theorem readFile_isSome_of_mem {dir : Directory} {filename : String}
    (h : ∃ e ∈ dir, e.name = filename ∧ e.isDir = false) :
    ∃ content, readFile dir filename = some content := by
  obtain ⟨e, he, hname, hdir⟩ := h
  unfold readFile
  have : (dir.find? fun entry => entry.name == filename && !entry.isDir).isSome := by
    rw [List.find?_isSome]
    exact ⟨e, he, by simp [hname, hdir]⟩
  obtain ⟨f, hf⟩ := Option.isSome_iff_exists.mp this
  exact ⟨f.content, by rw [hf]; rfl⟩

/-! ## Lemmas about catalog loading -/

theorem mem_loadMigrationFiles {chk : String → String} {dir : Directory} {m : Migration} :
    m ∈ loadMigrationFiles chk dir ↔
      ∃ e ∈ dir, e.isDir = false ∧ strEndsWith e.name (".sql") = true ∧
        strContains e.name ("_down_") = false ∧
        m = ⟨trimSuffix e.name (".sql"), e.name, e.content, chk e.content⟩ := by
  unfold loadMigrationFiles
  rw [(List.perm_insertionSort migLe _).mem_iff, List.mem_filterMap]
  constructor
  · rintro ⟨e, he, hsome⟩
    refine ⟨e, he, ?_⟩
    by_cases h1 : e.isDir = true
    · simp [h1] at hsome
    · by_cases h2 : strEndsWith e.name (".sql") = true
      · by_cases h3 : strContains e.name ("_down_") = true
        · simp [h1, h2, h3] at hsome
        · rw [if_neg (by simp [h1, h2]), if_neg (by simp [h3])] at hsome
          refine ⟨by simpa using h1, h2, by simpa using h3, ?_⟩
          cases hsome
          rfl
      · simp [h2] at hsome
  · rintro ⟨e, he, h1, h2, h3, hm⟩
    refine ⟨e, he, ?_⟩
    rw [if_neg (by simp [h1, h2]), if_neg (by simp [h3]), hm]

theorem loadMigrationFiles_sorted (chk : String → String) (dir : Directory) :
    (loadMigrationFiles chk dir).Pairwise migLe :=
  List.sorted_insertionSort migLe _

theorem loadMigrationFiles_no_down {chk : String → String} {dir : Directory} {m : Migration}
    (h : m ∈ loadMigrationFiles chk dir) : strContains m.Version ("_down_") = false := by
  obtain ⟨e, _, _, _, h3, hm⟩ := mem_loadMigrationFiles.mp h
  subst hm
  by_contra hc
  rw [Bool.not_eq_false] at hc
  exact absurd (strContains_trimSuffix hc) (by simp [h3])

/-! ## Lemmas about the pending loop of `RunMigrations` -/

theorem isMigrationExecuted_eq_false_iff {v : String} {executed : List String} :
    isMigrationExecuted v executed = false ↔ v ∉ executed := by
  rw [← Bool.not_eq_true, isMigrationExecuted, memStr_iff_mem]

theorem isMigrationExecuted_eq_true_iff {v : String} {executed : List String} :
    isMigrationExecuted v executed = true ↔ v ∈ executed := by
  rw [isMigrationExecuted, memStr_iff_mem]

/-- Success of the pending loop: when every pending script body is accepted,
the pending versions are distinct and none of them is already in the ledger,
the loop commits exactly the pending scripts, in order, appending their rows
and their bodies, and reports their number. -/
theorem runPendingMigrations_ok (sqlOk : String → Bool) :
    ∀ (migs : List Migration) (executed : List String) (st : DBState) (count : Nat),
      (∀ m ∈ migs.filter (fun m => !(isMigrationExecuted m.Version executed)),
        sqlOk m.SQLContent = true) →
      ((migs.filter (fun m => !(isMigrationExecuted m.Version executed))).map (·.Version)).Nodup →
      (∀ m ∈ migs.filter (fun m => !(isMigrationExecuted m.Version executed)),
        m.Version ∉ st.ledger.map (·.version)) →
      runPendingMigrations sqlOk migs executed st count =
        (⟨st.ledger ++ (migs.filter (fun m => !(isMigrationExecuted m.Version executed))).map
            (fun m => ⟨m.Version, m.Checksum⟩),
          st.schemaLog ++ (migs.filter (fun m => !(isMigrationExecuted m.Version executed))).map
            (·.SQLContent)⟩,
         .ok (count + (migs.filter (fun m => !(isMigrationExecuted m.Version executed))).length)) := by
  intro migs
  induction migs with
  | nil =>
    intro executed st count _ _ _
    simp [runPendingMigrations]
  | cons m rest ih =>
    intro executed st count hok hnd hnotin
    by_cases hex : isMigrationExecuted m.Version executed = true
    · have hfilter : (m :: rest).filter (fun m => !(isMigrationExecuted m.Version executed)) =
          rest.filter (fun m => !(isMigrationExecuted m.Version executed)) := by
        rw [List.filter_cons_of_neg (by simp [hex])]
      rw [hfilter] at hok hnd hnotin ⊢
      rw [runPendingMigrations, if_pos hex]
      exact ih executed st count hok hnd hnotin
    · rw [Bool.not_eq_true] at hex
      have hfilter : (m :: rest).filter (fun m => !(isMigrationExecuted m.Version executed)) =
          m :: rest.filter (fun m => !(isMigrationExecuted m.Version executed)) := by
        rw [List.filter_cons_of_pos (by simp [hex])]
      rw [hfilter] at hok hnd hnotin ⊢
      have hsql : sqlOk m.SQLContent = true := hok m (List.mem_cons_self m _)
      have hmem : m.Version ∉ st.ledger.map (·.version) := hnotin m (List.mem_cons_self m _)
      rw [List.map_cons] at hnd
      have hndc := List.nodup_cons.mp hnd
      have hok2 : ∀ m2 ∈ rest.filter (fun m => !(isMigrationExecuted m.Version executed)),
          sqlOk m2.SQLContent = true := fun m2 hm2 => hok m2 (List.mem_cons_of_mem m hm2)
      have hnotin2 : ∀ m2 ∈ rest.filter (fun m => !(isMigrationExecuted m.Version executed)),
          m2.Version ∉ (st.ledger ++ [(⟨m.Version, m.Checksum⟩ : LedgerRow)]).map (·.version) := by
        intro m2 hm2
        rw [List.map_append, List.mem_append]
        rintro (hc | hc)
        · exact hnotin m2 (List.mem_cons_of_mem m hm2) hc
        · have hne : m2.Version ≠ m.Version := fun heq =>
            hndc.1 (List.mem_map.mpr ⟨m2, hm2, heq⟩)
          simp at hc
          exact hne hc
      rw [runPendingMigrations, if_neg (by simp [hex]), executeMigration_ok hsql hmem]
      show runPendingMigrations sqlOk rest executed
        ⟨st.ledger ++ [⟨m.Version, m.Checksum⟩], st.schemaLog ++ [m.SQLContent]⟩ (count + 1) = _
      rw [ih executed _ (count + 1) hok2 hndc.2 hnotin2]
      simp only [Prod.mk.injEq, DBState.mk.injEq]
      refine ⟨⟨?_, ?_⟩, ?_⟩
      · simp [List.map_cons, List.append_assoc]
      · simp [List.map_cons, List.append_assoc]
      · simp only [List.length_cons]
        congr 1
        omega

/-- Failure in the pending loop: with the pending list split as
`p1 ++ bad :: p2` where everything in `p1` succeeds and the body of `bad` is
rejected, the loop commits exactly `p1`, returns the failed script's error and
never reaches `bad`'s effects nor `p2`. -/
theorem runPendingMigrations_fail (sqlOk : String → Bool) :
    ∀ (migs : List Migration) (executed : List String) (st : DBState) (count : Nat)
      (p1 : List Migration) (bad : Migration) (p2 : List Migration),
      migs.filter (fun m => !(isMigrationExecuted m.Version executed)) = p1 ++ bad :: p2 →
      (∀ m ∈ p1, sqlOk m.SQLContent = true) →
      sqlOk bad.SQLContent = false →
      (p1.map (·.Version)).Nodup →
      (∀ m ∈ p1, m.Version ∉ st.ledger.map (·.version)) →
      runPendingMigrations sqlOk migs executed st count =
        (⟨st.ledger ++ p1.map (fun m => ⟨m.Version, m.Checksum⟩),
          st.schemaLog ++ p1.map (·.SQLContent)⟩,
         .error (.sqlError bad.Version)) := by
  intro migs
  induction migs with
  | nil =>
    intro executed st count p1 bad p2 hsplit _ _ _ _
    simp at hsplit
  | cons m rest ih =>
    intro executed st count p1 bad p2 hsplit hp1 hbad hnd hnotin
    by_cases hex : isMigrationExecuted m.Version executed = true
    · rw [List.filter_cons_of_neg (by simp [hex])] at hsplit
      rw [runPendingMigrations, if_pos hex]
      exact ih executed st count p1 bad p2 hsplit hp1 hbad hnd hnotin
    · rw [Bool.not_eq_true] at hex
      rw [List.filter_cons_of_pos (by simp [hex])] at hsplit
      cases p1 with
      | nil =>
        rw [List.nil_append, List.cons.injEq] at hsplit
        obtain ⟨rfl, -⟩ := hsplit
        rw [runPendingMigrations, if_neg (by simp [hex]), executeMigration_sql_fail hbad]
        simp
      | cons q q1 =>
        rw [List.cons_append, List.cons.injEq] at hsplit
        obtain ⟨rfl, hsplit2⟩ := hsplit
        have hsql : sqlOk m.SQLContent = true := hp1 m (List.mem_cons_self m _)
        have hmem : m.Version ∉ st.ledger.map (·.version) := hnotin m (List.mem_cons_self m _)
        rw [List.map_cons] at hnd
        have hndc := List.nodup_cons.mp hnd
        have hp1' : ∀ m2 ∈ q1, sqlOk m2.SQLContent = true :=
          fun m2 hm2 => hp1 m2 (List.mem_cons_of_mem m hm2)
        have hnotin' : ∀ m2 ∈ q1,
            m2.Version ∉ (st.ledger ++ [(⟨m.Version, m.Checksum⟩ : LedgerRow)]).map (·.version) := by
          intro m2 hm2
          rw [List.map_append, List.mem_append]
          rintro (hc | hc)
          · exact hnotin m2 (List.mem_cons_of_mem m hm2) hc
          · have hne : m2.Version ≠ m.Version := fun heq =>
              hndc.1 (List.mem_map.mpr ⟨m2, hm2, heq⟩)
            simp at hc
            exact hne hc
        rw [runPendingMigrations, if_neg (by simp [hex]), executeMigration_ok hsql hmem]
        show runPendingMigrations sqlOk rest executed
          ⟨st.ledger ++ [⟨m.Version, m.Checksum⟩], st.schemaLog ++ [m.SQLContent]⟩ (count + 1) = _
        rw [ih executed _ (count + 1) q1 bad p2 hsplit2 hp1' hbad hndc.2 hnotin']
        simp [List.append_assoc]

/-- When every catalog version is already applied the pending loop is the
identity on the state and applies zero scripts. -/
theorem runPendingMigrations_all_executed (sqlOk : String → Bool) :
    ∀ (migs : List Migration) (executed : List String) (st : DBState) (count : Nat),
      (∀ m ∈ migs, isMigrationExecuted m.Version executed = true) →
      runPendingMigrations sqlOk migs executed st count = (st, .ok count) := by
  intro migs
  induction migs with
  | nil => intro executed st count _; rfl
  | cons m rest ih =>
    intro executed st count hall
    rw [runPendingMigrations, if_pos (hall m (List.mem_cons_self m _))]
    exact ih executed st count fun m2 hm2 => hall m2 (List.mem_cons_of_mem m hm2)

/-- Inversion of a successful `executeMigration` transaction. -/
theorem executeMigration_ok_inv {sqlOk : String → Bool} {m : Migration} {st st2 : DBState}
    (h : executeMigration sqlOk m st = .ok st2) :
    st2 = ⟨st.ledger ++ [⟨m.Version, m.Checksum⟩], st.schemaLog ++ [m.SQLContent]⟩ ∧
      m.Version ∉ st.ledger.map (·.version) ∧ sqlOk m.SQLContent = true := by
  by_cases hsql : sqlOk m.SQLContent = true
  · by_cases hmem : m.Version ∈ st.ledger.map (·.version)
    · rw [executeMigration_dup hsql hmem] at h
      exact absurd h (by simp)
    · rw [executeMigration_ok hsql hmem] at h
      exact ⟨(Except.ok.injEq _ _ ▸ h).symm ▸ rfl, hmem, hsql⟩
  · rw [Bool.not_eq_true] at hsql
    rw [executeMigration_sql_fail hsql] at h
    exact absurd h (by simp)

/-- The pending loop only ever appends to the ledger. -/
theorem runPendingMigrations_ledger_extends (sqlOk : String → Bool) :
    ∀ (migs : List Migration) (executed : List String) (st : DBState) (count : Nat),
      ∃ d, (runPendingMigrations sqlOk migs executed st count).1.ledger = st.ledger ++ d := by
  intro migs
  induction migs with
  | nil => intro executed st count; exact ⟨[], by simp [runPendingMigrations]⟩
  | cons m rest ih =>
    intro executed st count
    rw [runPendingMigrations]
    by_cases hex : isMigrationExecuted m.Version executed = true
    · rw [if_pos hex]
      exact ih executed st count
    · rw [if_neg hex]
      cases hE : executeMigration sqlOk m st with
      | error e => exact ⟨[], by simp⟩
      | ok st1 =>
        obtain ⟨hst1, _, _⟩ := executeMigration_ok_inv hE
        obtain ⟨d, hd⟩ := ih executed st1 (count + 1)
        refine ⟨[⟨m.Version, m.Checksum⟩] ++ d, ?_⟩
        show (runPendingMigrations sqlOk rest executed st1 (count + 1)).1.ledger = _
        rw [hd, hst1]
        simp

/-- After a successful pending loop, every catalog version is either already
in the applied set or present in the final ledger. -/
theorem runPendingMigrations_ok_covers (sqlOk : String → Bool) :
    ∀ (migs : List Migration) (executed : List String) (st : DBState) (count : Nat)
      (st1 : DBState) (n : Nat),
      runPendingMigrations sqlOk migs executed st count = (st1, .ok n) →
      ∀ m ∈ migs, isMigrationExecuted m.Version executed = true ∨
        m.Version ∈ st1.ledger.map (·.version) := by
  intro migs
  induction migs with
  | nil => intro executed st count st1 n _ m hm; exact absurd hm (List.not_mem_nil m)
  | cons mg rest ih =>
    intro executed st count st1 n h m hm
    rw [runPendingMigrations] at h
    by_cases hex : isMigrationExecuted mg.Version executed = true
    · rw [if_pos hex] at h
      rcases List.mem_cons.mp hm with rfl | hm2
      · exact Or.inl hex
      · exact ih executed st count st1 n h m hm2
    · rw [if_neg hex] at h
      cases hE : executeMigration sqlOk mg st with
      | error e =>
        rw [hE] at h
        simp at h
      | ok st2 =>
        rw [hE] at h
        have h2 : runPendingMigrations sqlOk rest executed st2 (count + 1) = (st1, .ok n) := h
        rcases List.mem_cons.mp hm with rfl | hm2
        · right
          obtain ⟨hst2, _, _⟩ := executeMigration_ok_inv hE
          obtain ⟨d, hd⟩ := runPendingMigrations_ledger_extends sqlOk rest executed st2 (count + 1)
          rw [h2] at hd
          simp only at hd
          rw [hd, hst2]
          simp
        · exact ih executed st2 (count + 1) st1 n h2 m hm2

/-! ## Lemmas about integrity verification -/

theorem findCurrentMigration_eq_none_iff {v : String} {migs : List Migration} :
    findCurrentMigration v migs = none ↔ ∀ m ∈ migs, m.Version ≠ v := by
  unfold findCurrentMigration
  rw [List.find?_eq_none]
  simp

theorem findCurrentMigration_eq_some_mem {v : String} {migs : List Migration} {m : Migration}
    (h : findCurrentMigration v migs = some m) : m ∈ migs ∧ m.Version = v := by
  induction migs with
  | nil => simp [findCurrentMigration] at h
  | cons m0 rest ih =>
    by_cases h0 : m0.Version = v
    · have heq : findCurrentMigration v (m0 :: rest) = some m0 := by
        unfold findCurrentMigration
        exact List.find?_cons_of_pos rest (beq_iff_eq.mpr h0)
      rw [heq, Option.some.injEq] at h
      subst h
      exact ⟨List.mem_cons_self _ _, h0⟩
    · have heq : findCurrentMigration v (m0 :: rest) = findCurrentMigration v rest := by
        unfold findCurrentMigration
        exact List.find?_cons_of_neg rest (by simp [h0])
      rw [heq] at h
      obtain ⟨hm, hv⟩ := ih h
      exact ⟨List.mem_cons_of_mem _ hm, hv⟩

theorem findCurrentMigration_eq_some_of_nodup {v : String} {migs : List Migration}
    {m : Migration} (hnd : (migs.map (·.Version)).Nodup) (hm : m ∈ migs) (hv : m.Version = v) :
    findCurrentMigration v migs = some m := by
  induction migs with
  | nil => exact absurd hm (List.not_mem_nil m)
  | cons m0 rest ih =>
    rw [List.map_cons] at hnd
    have hndc := List.nodup_cons.mp hnd
    rcases List.mem_cons.mp hm with rfl | hm2
    · unfold findCurrentMigration
      exact List.find?_cons_of_pos rest (beq_iff_eq.mpr hv)
    · by_cases h0 : m0.Version = v
      · exact absurd (List.mem_map.mpr ⟨m, hm2, hv.trans h0.symm⟩) hndc.1
      · unfold findCurrentMigration
        exact (List.find?_cons_of_neg rest (by simp [h0])).trans (ih hndc.2 hm2)

/-- A row passes verification when a catalog script with its version exists
and either the row carries the legacy sentinel or the checksums agree. -/
def rowOk (migs : List Migration) (row : LedgerRow) : Prop :=
  ∃ cur, findCurrentMigration row.version migs = some cur ∧
    (row.checksum = legacySentinel ∨ cur.Checksum = row.checksum)

theorem verifyOneRow_eq_none_iff {migs : List Migration} {row : LedgerRow} :
    verifyOneRow migs row = none ↔ rowOk migs row := by
  unfold verifyOneRow rowOk
  cases hf : findCurrentMigration row.version migs with
  | none => simp
  | some cur =>
    by_cases hs : row.checksum = legacySentinel
    · apply iff_of_true
      · simp [hs]
      · exact ⟨cur, rfl, Or.inl hs⟩
    · by_cases hc : cur.Checksum = row.checksum
      · apply iff_of_true
        · simp [hs, hc]
        · exact ⟨cur, rfl, Or.inr hc⟩
      · apply iff_of_false
        · simp [hs, hc]
        · rintro ⟨cur2, hcur2, hor⟩
          rw [Option.some.injEq] at hcur2
          subst hcur2
          rcases hor with hor | hor
          · exact hs hor
          · exact hc hor

theorem verifyOneRow_eq_some {migs : List Migration} {row : LedgerRow} {e : MigErr}
    (h : verifyOneRow migs row = some e) :
    (findCurrentMigration row.version migs = none ∧ e = .orphanedEntry row.version) ∨
    (∃ cur, findCurrentMigration row.version migs = some cur ∧
      row.checksum ≠ legacySentinel ∧ cur.Checksum ≠ row.checksum ∧
      e = .checksumMismatch row.version row.checksum cur.Checksum) := by
  unfold verifyOneRow at h
  cases hf : findCurrentMigration row.version migs with
  | none =>
    rw [hf] at h
    simp only [Option.some.injEq] at h
    exact Or.inl ⟨rfl, h.symm⟩
  | some cur =>
    rw [hf] at h
    by_cases hs : row.checksum = legacySentinel
    · simp [hs] at h
    · by_cases hc : cur.Checksum = row.checksum
      · simp [hs, hc] at h
      · rw [show (match some cur with
            | none => some (MigErr.orphanedEntry row.version)
            | some current =>
              if (row.checksum == legacySentinel) = true then none
              else if (current.Checksum != row.checksum) = true then
                some (MigErr.checksumMismatch row.version row.checksum current.Checksum)
              else none) =
            (if (row.checksum == legacySentinel) = true then none
             else if (cur.Checksum != row.checksum) = true then
               some (MigErr.checksumMismatch row.version row.checksum cur.Checksum)
             else none) from rfl,
          if_neg (by simp [hs]), if_pos (by simp [hc]), Option.some.injEq] at h
        exact Or.inr ⟨cur, rfl, hs, hc, h.symm⟩

theorem verifyRows_eq_none_iff (migs : List Migration) :
    ∀ rows, verifyRows migs rows = none ↔ ∀ row ∈ rows, rowOk migs row := by
  intro rows
  induction rows with
  | nil => simp [verifyRows]
  | cons row rest ih =>
    rw [verifyRows]
    cases hv : verifyOneRow migs row with
    | some e =>
      apply iff_of_false
      · simp
      · rw [List.forall_mem_cons]
        rintro ⟨hrow, -⟩
        rw [← verifyOneRow_eq_none_iff, hv] at hrow
        exact Option.noConfusion hrow
    | none =>
      show verifyRows migs rest = none ↔ _
      rw [ih, List.forall_mem_cons]
      have hrow : rowOk migs row := verifyOneRow_eq_none_iff.mp hv
      exact ⟨fun h => ⟨hrow, h⟩, fun h => h.2⟩

theorem verifyRows_eq_some (migs : List Migration) :
    ∀ rows e, verifyRows migs rows = some e →
      ∃ row ∈ rows, verifyOneRow migs row = some e := by
  intro rows
  induction rows with
  | nil => intro e h; simp [verifyRows] at h
  | cons row rest ih =>
    intro e h
    rw [verifyRows] at h
    cases hv : verifyOneRow migs row with
    | some e2 =>
      rw [hv] at h
      simp only [Option.some.injEq] at h
      exact ⟨row, List.mem_cons_self row rest, h ▸ hv⟩
    | none =>
      rw [hv] at h
      obtain ⟨row2, hrow2, h2⟩ := ih e h
      exact ⟨row2, List.mem_cons_of_mem row hrow2, h2⟩

theorem verifyMigrationIntegrity_eq_none_iff (migs : List Migration) (st : DBState) :
    verifyMigrationIntegrity migs st = none ↔ ∀ row ∈ st.ledger, rowOk migs row := by
  unfold verifyMigrationIntegrity
  rw [verifyRows_eq_none_iff]
  constructor
  · intro H row hrow
    exact H row ((List.perm_insertionSort rowLe st.ledger).mem_iff.mpr hrow)
  · intro H row hrow
    exact H row ((List.perm_insertionSort rowLe st.ledger).mem_iff.mp hrow)

theorem verifyMigrationIntegrity_eq_some {migs : List Migration} {st : DBState} {e : MigErr}
    (h : verifyMigrationIntegrity migs st = some e) :
    ∃ row ∈ st.ledger,
      (findCurrentMigration row.version migs = none ∧ e = .orphanedEntry row.version) ∨
      (∃ cur, findCurrentMigration row.version migs = some cur ∧
        row.checksum ≠ legacySentinel ∧ cur.Checksum ≠ row.checksum ∧
        e = .checksumMismatch row.version row.checksum cur.Checksum) := by
  obtain ⟨row, hrow, hone⟩ := verifyRows_eq_some migs _ e h
  exact ⟨row, (List.perm_insertionSort rowLe st.ledger).mem_iff.mp hrow,
    verifyOneRow_eq_some hone⟩

/-! ## Lemmas about rollback -/

theorem strLe_refl (a : String) : strLe a a = true := by
  simp [strLe, strLt_irrefl]

theorem strLe_of_strLt {a b : String} (h : strLt a b = true) : strLe a b = true := by
  simp only [strLe, Bool.not_eq_true']
  by_contra hc
  rw [Bool.not_eq_false] at hc
  exact absurd (strLt_trans h hc) (by simp [strLt_irrefl])

theorem strLe_of_not_strLt {a b : String} (h : strLt b a = false) : strLe a b = true := by
  simp [strLe, h]

theorem eq_empty_of_strLe_empty {v : String} (h : strLe v ("") = true) : v = ("") := by
  simp only [strLe, Bool.not_eq_true'] at h
  cases hv : v.data with
  | nil => exact str_ext hv
  | cons c cs =>
    rw [strLt, hv] at h
    simp [strLtL] at h

theorem foldlMax_spec :
    ∀ (l : List String) (acc : String),
      (l.foldl (fun acc v => if strLt acc v then v else acc) acc = acc ∨
        l.foldl (fun acc v => if strLt acc v then v else acc) acc ∈ l) ∧
      strLe acc (l.foldl (fun acc v => if strLt acc v then v else acc) acc) = true ∧
      ∀ v ∈ l, strLe v (l.foldl (fun acc v => if strLt acc v then v else acc) acc) = true := by
  intro l
  induction l with
  | nil => intro acc; exact ⟨Or.inl rfl, strLe_refl acc, by simp⟩
  | cons w ws ih =>
    intro acc
    rw [List.foldl_cons]
    obtain ⟨ih1, ih2, ih3⟩ := ih (if strLt acc w then w else acc)
    have hstep : strLe acc (if strLt acc w then w else acc) = true := by
      by_cases hw : strLt acc w = true
      · rw [if_pos hw]; exact strLe_of_strLt hw
      · rw [Bool.not_eq_true] at hw
        rw [if_neg (by simp [hw])]; exact strLe_refl acc
    have hstepw : strLe w (if strLt acc w then w else acc) = true := by
      by_cases hw : strLt acc w = true
      · rw [if_pos hw]; exact strLe_refl w
      · rw [Bool.not_eq_true] at hw
        rw [if_neg (by simp [hw])]; exact strLe_of_not_strLt hw
    refine ⟨?_, strLe_trans hstep ih2, ?_⟩
    · rcases ih1 with h1 | h1
      · rw [h1]
        by_cases hw : strLt acc w = true
        · rw [if_pos hw]; exact Or.inr (List.mem_cons_self w ws)
        · rw [Bool.not_eq_true] at hw
          rw [if_neg (by simp [hw])]; exact Or.inl rfl
      · exact Or.inr (List.mem_cons_of_mem w h1)
    · intro v hv
      rcases List.mem_cons.mp hv with rfl | hv2
      · exact strLe_trans hstepw ih2
      · exact ih3 v hv2

theorem lastAppliedVersion_spec {executed : List String} (h : executed ≠ []) :
    lastAppliedVersion executed ∈ executed ∧
      ∀ v ∈ executed, strLe v (lastAppliedVersion executed) = true := by
  obtain ⟨h1, -, h3⟩ := foldlMax_spec executed ("")
  rw [lastAppliedVersion]
  refine ⟨?_, h3⟩
  rcases h1 with h1 | h1
  · cases executed with
    | nil => exact absurd rfl h
    | cons w ws =>
      have hw : w = ("") := by
        have := h3 w (List.mem_cons_self w ws)
        rw [h1] at this
        exact eq_empty_of_strLe_empty this
      rw [h1, ← hw]
      exact List.mem_cons_self w ws
  · exact h1

/-- Two rows of a ledger with distinct versions are equal when their versions
agree. -/
theorem ledgerRow_inj :
    ∀ {l : List LedgerRow}, (l.map (·.version)).Nodup →
      ∀ {r1 r2 : LedgerRow}, r1 ∈ l → r2 ∈ l → r1.version = r2.version → r1 = r2 := by
  intro l
  induction l with
  | nil => intro _ r1 r2 h1; exact absurd h1 (List.not_mem_nil r1)
  | cons r rest ih =>
    intro hnd r1 r2 h1 h2 hv
    rw [List.map_cons] at hnd
    have hndc := List.nodup_cons.mp hnd
    rcases List.mem_cons.mp h1 with rfl | h1'
    · rcases List.mem_cons.mp h2 with rfl | h2'
      · rfl
      · exact absurd (List.mem_map.mpr ⟨r2, h2', hv.symm⟩) hndc.1
    · rcases List.mem_cons.mp h2 with rfl | h2'
      · exact absurd (List.mem_map.mpr ⟨r1, h1', hv⟩) hndc.1
      · exact ih hndc.2 h1' h2' hv

/-- The content that a rollback step reads for a version (empty string when
the down-script file is absent; only used when it is present). -/
def downContent (dir : Directory) (version : String) : String :=
  (readFile dir (resolveDownFilename dir version)).getD ("")

/-- Whether a rollback step for `version` fails: its down-script file is
absent, or its body is rejected. -/
def downStepFails (sqlOk : String → Bool) (dir : Directory) (version : String) : Bool :=
  match readFile dir (resolveDownFilename dir version) with
  | none => true
  | some content => !(sqlOk content)

theorem downStepFails_false {sqlOk : String → Bool} {dir : Directory} {version : String}
    (h : downStepFails sqlOk dir version = false) :
    readFile dir (resolveDownFilename dir version) = some (downContent dir version) ∧
      sqlOk (downContent dir version) = true := by
  unfold downStepFails at h
  cases hr : readFile dir (resolveDownFilename dir version) with
  | none => rw [hr] at h; simp at h
  | some content =>
    rw [hr] at h
    constructor
    · unfold downContent
      rw [hr]
      rfl
    · unfold downContent
      rw [hr]
      simpa using h

theorem rollbackOneMigration_ok {sqlOk : String → Bool} {dir : Directory} {version : String}
    {st : DBState} {content : String}
    (hread : readFile dir (resolveDownFilename dir version) = some content)
    (hsql : sqlOk content = true) :
    rollbackOneMigration sqlOk dir version st =
      .ok ⟨st.ledger.filter fun row => !(row.version == version), st.schemaLog ++ [content]⟩ := by
  unfold rollbackOneMigration
  rw [hread]
  show (match execSQL sqlOk content st with
    | none => Except.error (MigErr.downSqlError version)
    | some st1 => Except.ok (deleteLedger version st1)) = _
  rw [execSQL_of_ok hsql]
  rfl

theorem rollbackOneMigration_fails {sqlOk : String → Bool} {dir : Directory} {version : String}
    (h : downStepFails sqlOk dir version = true) (st : DBState) :
    ∃ e, rollbackOneMigration sqlOk dir version st = .error e := by
  unfold downStepFails at h
  unfold rollbackOneMigration
  cases hr : readFile dir (resolveDownFilename dir version) with
  | none => exact ⟨.readFileError (resolveDownFilename dir version), rfl⟩
  | some content =>
    rw [hr] at h
    simp only [Bool.not_eq_true'] at h
    refine ⟨.downSqlError version, ?_⟩
    show (match execSQL sqlOk content st with
      | none => Except.error (MigErr.downSqlError version)
      | some st1 => Except.ok (deleteLedger version st1)) = _
    rw [execSQL_of_fail h]

theorem rollbackOneMigration_ok_inv {sqlOk : String → Bool} {dir : Directory} {version : String}
    {st st1 : DBState} (h : rollbackOneMigration sqlOk dir version st = .ok st1) :
    ∃ content, readFile dir (resolveDownFilename dir version) = some content ∧
      sqlOk content = true ∧
      st1 = ⟨st.ledger.filter fun row => !(row.version == version), st.schemaLog ++ [content]⟩ := by
  unfold rollbackOneMigration at h
  cases hr : readFile dir (resolveDownFilename dir version) with
  | none => rw [hr] at h; exact absurd h (by simp)
  | some content =>
    rw [hr] at h
    have h2 : (match execSQL sqlOk content st with
      | none => Except.error (MigErr.downSqlError version)
      | some st1 => Except.ok (deleteLedger version st1)) = Except.ok st1 := h
    by_cases hs : sqlOk content = true
    · rw [execSQL_of_ok hs] at h2
      refine ⟨content, rfl, hs, ?_⟩
      simp only [Except.ok.injEq] at h2
      exact h2.symm
    · rw [Bool.not_eq_true] at hs
      rw [execSQL_of_fail hs] at h2
      exact absurd h2 (by simp)

/-- The condition under which the loop of `RunDownMigrations` rolls a catalog
entry back: no down marker in the version (always true for catalog entries),
applied, and strictly above the target. -/
def downLoopPred (executed : List String) (target : String) (m : Migration) : Bool :=
  !(strContains m.Version ("_down_")) &&
    (isMigrationExecuted m.Version executed && strLt target m.Version)

/-- Success of the rollback loop: when every candidate's down script resolves
and executes, the loop deletes exactly the candidates' ledger rows, appends
exactly their down-script bodies in order, and counts them. -/
theorem runDownLoop_ok (sqlOk : String → Bool) (dir : Directory) (executed : List String)
    (target : String) :
    ∀ (migs : List Migration) (st : DBState) (count : Nat),
      (∀ m ∈ migs.filter (downLoopPred executed target),
        downStepFails sqlOk dir m.Version = false) →
      runDownLoop sqlOk dir executed target migs st count =
        (⟨st.ledger.filter (fun r =>
            !(memStr r.version ((migs.filter (downLoopPred executed target)).map (·.Version)))),
          st.schemaLog ++ (migs.filter (downLoopPred executed target)).map
            (fun m => downContent dir m.Version)⟩,
         .ok (count + (migs.filter (downLoopPred executed target)).length)) := by
  intro migs
  induction migs with
  | nil =>
    intro st count _
    simp only [List.filter_nil, List.map_nil, List.length_nil, List.append_nil, Nat.add_zero]
    rw [runDownLoop]
    congr 2
    rw [show (fun (r : LedgerRow) => !(memStr r.version [])) = fun _ => true by
      funext r; rfl]
    simp
  | cons m rest ih =>
    intro st count hp
    rw [runDownLoop]
    by_cases hdp : strContains m.Version ("_down_") = true
    · rw [if_neg (by simp [hdp])]
      have hfilter : (m :: rest).filter (downLoopPred executed target) =
          rest.filter (downLoopPred executed target) :=
        List.filter_cons_of_neg (by simp [downLoopPred, hdp])
      rw [hfilter] at hp ⊢
      exact ih st count hp
    · rw [Bool.not_eq_true] at hdp
      rw [if_pos (by simp [hdp])]
      by_cases hact : (isMigrationExecuted m.Version executed && strLt target m.Version) = true
      · rw [if_pos hact]
        have hfilter : (m :: rest).filter (downLoopPred executed target) =
            m :: rest.filter (downLoopPred executed target) :=
          List.filter_cons_of_pos (by simp [downLoopPred, hdp, hact])
        rw [hfilter] at hp ⊢
        obtain ⟨hread, hsql⟩ := downStepFails_false (hp m (List.mem_cons_self m _))
        have hp2 : ∀ m2 ∈ rest.filter (downLoopPred executed target),
            downStepFails sqlOk dir m2.Version = false :=
          fun m2 hm2 => hp m2 (List.mem_cons_of_mem m hm2)
        rw [rollbackOneMigration_ok hread hsql]
        show runDownLoop sqlOk dir executed target rest
          ⟨st.ledger.filter fun row => !(row.version == m.Version),
           st.schemaLog ++ [downContent dir m.Version]⟩ (count + 1) = _
        rw [ih _ (count + 1) hp2]
        simp only [Prod.mk.injEq, DBState.mk.injEq]
        refine ⟨⟨?_, ?_⟩, ?_⟩
        · rw [List.filter_filter]
          apply List.filter_congr
          intro r _
          show ((!(memStr r.version ((rest.filter (downLoopPred executed target)).map (·.Version)))) &&
            (!(r.version == m.Version))) =
            !(r.version == m.Version ||
              memStr r.version ((rest.filter (downLoopPred executed target)).map (·.Version)))
          rw [Bool.not_or, Bool.and_comm]
        · simp [List.append_assoc]
        · congr 1
          simp only [List.length_cons]
          omega
      · rw [if_neg hact]
        have hfilter : (m :: rest).filter (downLoopPred executed target) =
            rest.filter (downLoopPred executed target) :=
          List.filter_cons_of_neg (by simp [downLoopPred, hact])
        rw [hfilter] at hp ⊢
        exact ih st count hp

/-- Failure in the rollback loop: with the candidate list split as
`c1 ++ bad :: c2` where every step of `c1` succeeds and `bad`'s step fails,
the loop rolls back exactly `c1`, then aborts with an error, leaving `bad` and
everything after it applied. -/
theorem runDownLoop_fail (sqlOk : String → Bool) (dir : Directory) (executed : List String)
    (target : String) :
    ∀ (migs : List Migration) (st : DBState) (count : Nat) (c1 : List Migration)
      (bad : Migration) (c2 : List Migration),
      migs.filter (downLoopPred executed target) = c1 ++ bad :: c2 →
      (∀ m ∈ c1, downStepFails sqlOk dir m.Version = false) →
      downStepFails sqlOk dir bad.Version = true →
      ∃ e, runDownLoop sqlOk dir executed target migs st count =
        (⟨st.ledger.filter (fun r => !(memStr r.version (c1.map (·.Version)))),
          st.schemaLog ++ c1.map (fun m => downContent dir m.Version)⟩,
         .error e) := by
  intro migs
  induction migs with
  | nil =>
    intro st count c1 bad c2 hsplit _ _
    simp at hsplit
  | cons m rest ih =>
    intro st count c1 bad c2 hsplit hc1 hbad
    rw [runDownLoop]
    by_cases hdp : strContains m.Version ("_down_") = true
    · rw [if_neg (by simp [hdp])]
      rw [List.filter_cons_of_neg (by simp [downLoopPred, hdp])] at hsplit
      exact ih st count c1 bad c2 hsplit hc1 hbad
    · rw [Bool.not_eq_true] at hdp
      rw [if_pos (by simp [hdp])]
      by_cases hact : (isMigrationExecuted m.Version executed && strLt target m.Version) = true
      · rw [if_pos hact]
        rw [List.filter_cons_of_pos (by simp [downLoopPred, hdp, hact])] at hsplit
        cases c1 with
        | nil =>
          rw [List.nil_append, List.cons.injEq] at hsplit
          obtain ⟨rfl, -⟩ := hsplit
          obtain ⟨e, he⟩ := rollbackOneMigration_fails hbad st
          rw [he]
          refine ⟨e, ?_⟩
          show (st, Except.error e) = _
          simp only [List.map_nil]
          rw [show (fun (r : LedgerRow) => !(memStr r.version [])) = fun _ => true by
            funext r; rfl]
          simp
        | cons q q1 =>
          rw [List.cons_append, List.cons.injEq] at hsplit
          obtain ⟨rfl, hsplit2⟩ := hsplit
          obtain ⟨hread, hsql⟩ := downStepFails_false (hc1 m (List.mem_cons_self m _))
          have hc1' : ∀ m2 ∈ q1, downStepFails sqlOk dir m2.Version = false :=
            fun m2 hm2 => hc1 m2 (List.mem_cons_of_mem m hm2)
          rw [rollbackOneMigration_ok hread hsql]
          show ∃ e, runDownLoop sqlOk dir executed target rest
            ⟨st.ledger.filter fun row => !(row.version == m.Version),
             st.schemaLog ++ [downContent dir m.Version]⟩ (count + 1) = _
          obtain ⟨e, he⟩ := ih ⟨st.ledger.filter fun row => !(row.version == m.Version),
            st.schemaLog ++ [downContent dir m.Version]⟩ (count + 1) q1 bad c2 hsplit2 hc1' hbad
          refine ⟨e, he.trans ?_⟩
          simp only [Prod.mk.injEq, DBState.mk.injEq]
          refine ⟨⟨?_, ?_⟩, trivial⟩
          · rw [List.filter_filter]
            apply List.filter_congr
            intro r _
            show ((!(memStr r.version (q1.map (·.Version)))) && (!(r.version == m.Version))) =
              !(r.version == m.Version || memStr r.version (q1.map (·.Version)))
            rw [Bool.not_or, Bool.and_comm]
          · simp [List.append_assoc]
      · rw [if_neg hact]
        rw [List.filter_cons_of_neg (by simp [downLoopPred, hact])] at hsplit
        exact ih st count c1 bad c2 hsplit hc1 hbad

/-! ## Derived descriptions of a run, used to state the claims -/

/-- The state a fully successful pending loop leaves behind: the pending rows
and the pending script bodies appended in order. -/
def pendingFinalState (chk : String → String) (dir : Directory) (st : DBState) : DBState :=
  ⟨st.ledger ++ (pendingMigrations chk dir st).map (fun m => ⟨m.Version, m.Checksum⟩),
   st.schemaLog ++ (pendingMigrations chk dir st).map (·.SQLContent)⟩

theorem pendingMigrations_version_nodup {chk : String → String} {dir : Directory}
    (st : DBState) (hnd : ((loadMigrationFiles chk dir).map (·.Version)).Nodup) :
    ((pendingMigrations chk dir st).map (·.Version)).Nodup :=
  hnd.sublist ((List.filter_sublist _).map _)

theorem pendingMigrations_not_applied {chk : String → String} {dir : Directory} {st : DBState}
    {m : Migration} (hm : m ∈ pendingMigrations chk dir st) :
    m.Version ∉ st.ledger.map (·.version) := by
  have hmem := (List.mem_filter.mp hm).2
  rw [Bool.not_eq_true'] at hmem
  exact isMigrationExecuted_eq_false_iff.mp hmem

theorem runMigrations_loop_eq (chk : String → String) (sqlOk : String → Bool)
    (dir : Directory) (st : DBState)
    (hnd : ((loadMigrationFiles chk dir).map (·.Version)).Nodup)
    (hok : ∀ m ∈ pendingMigrations chk dir st, sqlOk m.SQLContent = true) :
    runPendingMigrations sqlOk (loadMigrationFiles chk dir) (getExecutedMigrations st) st 0 =
      (pendingFinalState chk dir st, .ok (pendingMigrations chk dir st).length) := by
  have h := runPendingMigrations_ok sqlOk (loadMigrationFiles chk dir)
    (getExecutedMigrations st) st 0 hok (pendingMigrations_version_nodup st hnd)
    (fun m hm => pendingMigrations_not_applied hm)
  rw [Nat.zero_add] at h
  exact h

theorem runMigrations_state_eq (chk : String → String) (sqlOk : String → Bool)
    (dir : Directory) (st : DBState)
    (hnd : ((loadMigrationFiles chk dir).map (·.Version)).Nodup)
    (hok : ∀ m ∈ pendingMigrations chk dir st, sqlOk m.SQLContent = true) :
    (RunMigrations chk sqlOk dir st).1 = pendingFinalState chk dir st := by
  have hloop := runMigrations_loop_eq chk sqlOk dir st hnd hok
  simp only [RunMigrations]
  rw [hloop]
  show (match verifyMigrationIntegrity (loadMigrationFiles chk dir) (pendingFinalState chk dir st) with
    | some e => (pendingFinalState chk dir st, Except.error e)
    | none => (pendingFinalState chk dir st, Except.ok (pendingMigrations chk dir st).length)).1 = _
  cases verifyMigrationIntegrity (loadMigrationFiles chk dir) (pendingFinalState chk dir st) with
  | none => rfl
  | some e => rfl

theorem runMigrations_result_eq (chk : String → String) (sqlOk : String → Bool)
    (dir : Directory) (st : DBState)
    (hnd : ((loadMigrationFiles chk dir).map (·.Version)).Nodup)
    (hok : ∀ m ∈ pendingMigrations chk dir st, sqlOk m.SQLContent = true) :
    (RunMigrations chk sqlOk dir st).2 =
      (match verifyMigrationIntegrity (loadMigrationFiles chk dir) (pendingFinalState chk dir st) with
        | some e => .error e
        | none => .ok (pendingMigrations chk dir st).length) := by
  have hloop := runMigrations_loop_eq chk sqlOk dir st hnd hok
  simp only [RunMigrations]
  rw [hloop]
  show (match verifyMigrationIntegrity (loadMigrationFiles chk dir) (pendingFinalState chk dir st) with
    | some e => (pendingFinalState chk dir st, Except.error e)
    | none => (pendingFinalState chk dir st, Except.ok (pendingMigrations chk dir st).length)).2 = _
  cases verifyMigrationIntegrity (loadMigrationFiles chk dir) (pendingFinalState chk dir st) with
  | none => rfl
  | some e => rfl

/-! ## Claim theorems -/

/-- C1.  For every catalog and every applied set, `applyPending`
(`RunMigrations`) executes exactly the catalog scripts whose version is not in
the applied set (`pendingMigrations` is literally that filter, in catalog
order), one by one in strictly ascending version order under plain string
comparison, and records each executed version in the ledger with its checksum:
the final ledger is the old ledger plus one `(version, checksum)` row per
pending script in order, the schema journal grows by exactly the pending
bodies in order, and the pending version sequence is strictly ascending.
Hypotheses: catalog versions are distinct (the data-model invariant; filenames
in a directory are unique) and every pending body executes successfully. -/
theorem runMigrations_applies_pending_ascending (chk : String → String) (sqlOk : String → Bool)
    (dir : Directory) (st : DBState)
    (hnd : ((loadMigrationFiles chk dir).map (·.Version)).Nodup)
    (hok : ∀ m ∈ pendingMigrations chk dir st, sqlOk m.SQLContent = true) :
    (RunMigrations chk sqlOk dir st).1.ledger =
      st.ledger ++ (pendingMigrations chk dir st).map (fun m => ⟨m.Version, m.Checksum⟩) ∧
    (RunMigrations chk sqlOk dir st).1.schemaLog =
      st.schemaLog ++ (pendingMigrations chk dir st).map (·.SQLContent) ∧
    ((pendingMigrations chk dir st).map (·.Version)).Pairwise (fun v w => strLt v w = true) := by
  have h1 := runMigrations_state_eq chk sqlOk dir st hnd hok
  refine ⟨by rw [h1]; rfl, by rw [h1]; rfl, ?_⟩
  have hsp : (pendingMigrations chk dir st).Pairwise migLe :=
    (loadMigrationFiles_sorted chk dir).filter _
  have hndp := pendingMigrations_version_nodup st hnd
  have hne : (pendingMigrations chk dir st).Pairwise
      (fun a b : Migration => a.Version ≠ b.Version) := List.pairwise_map.mp hndp
  rw [List.pairwise_map]
  exact (hsp.and hne).imp fun hab => strLt_of_strLe_of_ne hab.1 hab.2

/-- Witness for C1 on a concrete two-script directory and an empty ledger. -/
theorem runMigrations_applies_pending_ascending_witness :
    (((loadMigrationFiles (fun s => "#" ++ s)
        [⟨"002_b.sql", false, "B"⟩, ⟨"001_a.sql", false, "A"⟩]).map (·.Version)).Nodup) ∧
    ((RunMigrations (fun s => "#" ++ s) (fun _ => true)
        [⟨"002_b.sql", false, "B"⟩, ⟨"001_a.sql", false, "A"⟩] ⟨[], []⟩).1.ledger =
      [] ++ (pendingMigrations (fun s => "#" ++ s)
        [⟨"002_b.sql", false, "B"⟩, ⟨"001_a.sql", false, "A"⟩] ⟨[], []⟩).map
          (fun m => ⟨m.Version, m.Checksum⟩) ∧
     (RunMigrations (fun s => "#" ++ s) (fun _ => true)
        [⟨"002_b.sql", false, "B"⟩, ⟨"001_a.sql", false, "A"⟩] ⟨[], []⟩).1.schemaLog =
      [] ++ (pendingMigrations (fun s => "#" ++ s)
        [⟨"002_b.sql", false, "B"⟩, ⟨"001_a.sql", false, "A"⟩] ⟨[], []⟩).map (·.SQLContent) ∧
     ((pendingMigrations (fun s => "#" ++ s)
        [⟨"002_b.sql", false, "B"⟩, ⟨"001_a.sql", false, "A"⟩] ⟨[], []⟩).map
          (·.Version)).Pairwise (fun v w => strLt v w = true)) :=
  ⟨by decide,
   runMigrations_applies_pending_ascending (fun s => "#" ++ s) (fun _ => true)
     [⟨"002_b.sql", false, "B"⟩, ⟨"001_a.sql", false, "A"⟩] ⟨[], []⟩
     (by decide) (by decide)⟩

/-- C2.  If a pending script fails during `applyPending`, the run returns that
script's error, the failed transaction leaves neither the script's schema
effect nor its ledger row behind, no later pending script is attempted, and
the rows committed earlier in the same run remain committed: with the pending
list split as `p1 ++ bad :: p2` where `p1` succeeds and `bad`'s body is
rejected, the final state contains exactly the rows and bodies of `p1`. -/
theorem runMigrations_failure_aborts_run (chk : String → String) (sqlOk : String → Bool)
    (dir : Directory) (st : DBState) (p1 : List Migration) (bad : Migration)
    (p2 : List Migration)
    (hnd : ((loadMigrationFiles chk dir).map (·.Version)).Nodup)
    (hsplit : pendingMigrations chk dir st = p1 ++ bad :: p2)
    (hp1 : ∀ m ∈ p1, sqlOk m.SQLContent = true)
    (hbad : sqlOk bad.SQLContent = false) :
    RunMigrations chk sqlOk dir st =
      (⟨st.ledger ++ p1.map (fun m => ⟨m.Version, m.Checksum⟩),
        st.schemaLog ++ p1.map (·.SQLContent)⟩,
       .error (.sqlError bad.Version)) := by
  have hpnd : ((pendingMigrations chk dir st).map (·.Version)).Nodup :=
    pendingMigrations_version_nodup st hnd
  rw [hsplit] at hpnd
  have hp1nd : (p1.map (·.Version)).Nodup :=
    hpnd.sublist ((List.sublist_append_left p1 (bad :: p2)).map _)
  have hp1notin : ∀ m ∈ p1, m.Version ∉ st.ledger.map (·.version) := by
    intro m hm
    exact pendingMigrations_not_applied (hsplit ▸ List.mem_append_left (bad :: p2) hm)
  have hloop := runPendingMigrations_fail sqlOk (loadMigrationFiles chk dir)
    (getExecutedMigrations st) st 0 p1 bad p2 hsplit hp1 hbad hp1nd hp1notin
  simp only [RunMigrations]
  rw [hloop]

/-- Witness for C2: three pending scripts `001,002,003` where `002`'s body is
rejected; afterwards the ledger holds exactly the `001` row, `002` left no
schema effect, `003` was never attempted, and the run reports `002`'s error. -/
theorem runMigrations_failure_aborts_run_witness :
    (((loadMigrationFiles (fun s => "#" ++ s)
        [⟨"001_a.sql", false, "A1"⟩, ⟨"002_b.sql", false, "B2"⟩, ⟨"003_c.sql", false, "C3"⟩]).map
          (·.Version)).Nodup) ∧
    (pendingMigrations (fun s => "#" ++ s)
        [⟨"001_a.sql", false, "A1"⟩, ⟨"002_b.sql", false, "B2"⟩, ⟨"003_c.sql", false, "C3"⟩]
        ⟨[], []⟩ =
      [⟨"001_a", "001_a.sql", "A1", "#A1"⟩] ++ ⟨"002_b", "002_b.sql", "B2", "#B2"⟩ ::
        [⟨"003_c", "003_c.sql", "C3", "#C3"⟩]) ∧
    RunMigrations (fun s => "#" ++ s) (fun s => !(s == "B2"))
        [⟨"001_a.sql", false, "A1"⟩, ⟨"002_b.sql", false, "B2"⟩, ⟨"003_c.sql", false, "C3"⟩]
        ⟨[], []⟩ =
      (⟨[] ++ ([⟨"001_a", "001_a.sql", "A1", "#A1"⟩] : List Migration).map
          (fun m => (⟨m.Version, m.Checksum⟩ : LedgerRow)),
        [] ++ ([⟨"001_a", "001_a.sql", "A1", "#A1"⟩] : List Migration).map (·.SQLContent)⟩,
       .error (.sqlError ("002_b"))) :=
  ⟨by decide, by decide,
   runMigrations_failure_aborts_run (fun s => "#" ++ s) (fun s => !(s == "B2"))
     [⟨"001_a.sql", false, "A1"⟩, ⟨"002_b.sql", false, "B2"⟩, ⟨"003_c.sql", false, "C3"⟩]
     ⟨[], []⟩ [⟨"001_a", "001_a.sql", "A1", "#A1"⟩] ⟨"002_b", "002_b.sql", "B2", "#B2"⟩
     [⟨"003_c", "003_c.sql", "C3", "#C3"⟩] (by decide) (by decide) (by decide) (by decide)⟩

/-- C3.  Every `applyPending` call (also with zero pending scripts) runs
integrity verification after the apply loop: the call succeeds (returning the
pending count) exactly when every ledger row has a catalog script of its
version whose checksum matches (or the row carries the legacy sentinel), and
every failure it returns is either an orphaned-entry error for a ledger
version absent from the catalog or a checksum-mismatch error naming the stored
and the current checksum of an offending row.  With a tampered script the
mismatch arm is the only one that applies, so the run fails naming both
checksums. -/
theorem runMigrations_integrity_verification (chk : String → String) (sqlOk : String → Bool)
    (dir : Directory) (st : DBState)
    (hnd : ((loadMigrationFiles chk dir).map (·.Version)).Nodup)
    (hok : ∀ m ∈ pendingMigrations chk dir st, sqlOk m.SQLContent = true) :
    ((RunMigrations chk sqlOk dir st).2 = .ok (pendingMigrations chk dir st).length ↔
      ∀ row ∈ (RunMigrations chk sqlOk dir st).1.ledger,
        ∃ mig ∈ loadMigrationFiles chk dir, mig.Version = row.version ∧
          (row.checksum = legacySentinel ∨ mig.Checksum = row.checksum)) ∧
    (∀ e, (RunMigrations chk sqlOk dir st).2 = .error e →
      ∃ row ∈ (RunMigrations chk sqlOk dir st).1.ledger,
        ((∀ mig ∈ loadMigrationFiles chk dir, mig.Version ≠ row.version) ∧
          e = .orphanedEntry row.version) ∨
        (∃ mig ∈ loadMigrationFiles chk dir, mig.Version = row.version ∧
          row.checksum ≠ legacySentinel ∧ mig.Checksum ≠ row.checksum ∧
          e = .checksumMismatch row.version row.checksum mig.Checksum)) := by
  have hstate := runMigrations_state_eq chk sqlOk dir st hnd hok
  have hres := runMigrations_result_eq chk sqlOk dir st hnd hok
  rw [hstate, hres]
  cases hv : verifyMigrationIntegrity (loadMigrationFiles chk dir) (pendingFinalState chk dir st) with
  | none =>
    constructor
    · apply iff_of_true rfl
      intro row hrow
      obtain ⟨cur, hfind, hor⟩ :=
        (verifyMigrationIntegrity_eq_none_iff (loadMigrationFiles chk dir)
          (pendingFinalState chk dir st)).mp hv row hrow
      obtain ⟨hmem, hver⟩ := findCurrentMigration_eq_some_mem hfind
      exact ⟨cur, hmem, hver, hor⟩
    · intro e he
      exact absurd he (by simp)
  | some e0 =>
    constructor
    · apply iff_of_false (by simp)
      intro hall
      obtain ⟨row, hrow, hcase⟩ := verifyMigrationIntegrity_eq_some hv
      obtain ⟨mig, hmigmem, hmigver, hmigor⟩ := hall row hrow
      rcases hcase with ⟨hnone, -⟩ | ⟨cur, hfind, hsent, hchk, -⟩
      · exact findCurrentMigration_eq_none_iff.mp hnone mig hmigmem hmigver
      · obtain ⟨hcurmem, hcurver⟩ := findCurrentMigration_eq_some_mem hfind
        have hmigcur : mig = cur :=
          List.inj_on_of_nodup_map hnd hmigmem hcurmem (by rw [hmigver, hcurver])
        rcases hmigor with hmigor | hmigor
        · exact hsent hmigor
        · exact hchk (hmigcur ▸ hmigor)
    · intro e he
      have he0 : e = e0 := by simpa using he.symm
      subst he0
      obtain ⟨row, hrow, hcase⟩ := verifyMigrationIntegrity_eq_some hv
      refine ⟨row, hrow, ?_⟩
      rcases hcase with ⟨hnone, heq⟩ | ⟨cur, hfind, hsent, hchk, heq⟩
      · exact Or.inl ⟨findCurrentMigration_eq_none_iff.mp hnone, heq⟩
      · obtain ⟨hcurmem, hcurver⟩ := findCurrentMigration_eq_some_mem hfind
        exact Or.inr ⟨cur, hcurmem, hcurver, hsent, hchk, heq⟩

/-- Witness for C3: an applied version `001_a` whose on-disk script was
modified after application; the next run has zero pending scripts and fails
with the checksum-mismatch error naming the stored and the current checksum. -/
theorem runMigrations_integrity_verification_witness :
    (((loadMigrationFiles (fun s => "#" ++ s) [⟨"001_a.sql", false, "A2"⟩]).map
        (·.Version)).Nodup) ∧
    (∀ m ∈ pendingMigrations (fun s => "#" ++ s) [⟨"001_a.sql", false, "A2"⟩]
        ⟨[⟨"001_a", "#A"⟩], []⟩, (fun _ => true) m.SQLContent = true) ∧
    (RunMigrations (fun s => "#" ++ s) (fun _ => true) [⟨"001_a.sql", false, "A2"⟩]
        ⟨[⟨"001_a", "#A"⟩], []⟩).2 =
      .error (.checksumMismatch ("001_a") ("#A") ("#A2")) ∧
    (((RunMigrations (fun s => "#" ++ s) (fun _ => true) [⟨"001_a.sql", false, "A2"⟩]
        ⟨[⟨"001_a", "#A"⟩], []⟩).2 =
      .ok (pendingMigrations (fun s => "#" ++ s) [⟨"001_a.sql", false, "A2"⟩]
        ⟨[⟨"001_a", "#A"⟩], []⟩).length ↔
      ∀ row ∈ (RunMigrations (fun s => "#" ++ s) (fun _ => true) [⟨"001_a.sql", false, "A2"⟩]
          ⟨[⟨"001_a", "#A"⟩], []⟩).1.ledger,
        ∃ mig ∈ loadMigrationFiles (fun s => "#" ++ s) [⟨"001_a.sql", false, "A2"⟩],
          mig.Version = row.version ∧
          (row.checksum = legacySentinel ∨ mig.Checksum = row.checksum)) ∧
     (∀ e, (RunMigrations (fun s => "#" ++ s) (fun _ => true) [⟨"001_a.sql", false, "A2"⟩]
          ⟨[⟨"001_a", "#A"⟩], []⟩).2 = .error e →
      ∃ row ∈ (RunMigrations (fun s => "#" ++ s) (fun _ => true) [⟨"001_a.sql", false, "A2"⟩]
          ⟨[⟨"001_a", "#A"⟩], []⟩).1.ledger,
        ((∀ mig ∈ loadMigrationFiles (fun s => "#" ++ s) [⟨"001_a.sql", false, "A2"⟩],
            mig.Version ≠ row.version) ∧ e = .orphanedEntry row.version) ∨
        (∃ mig ∈ loadMigrationFiles (fun s => "#" ++ s) [⟨"001_a.sql", false, "A2"⟩],
          mig.Version = row.version ∧ row.checksum ≠ legacySentinel ∧
          mig.Checksum ≠ row.checksum ∧
          e = .checksumMismatch row.version row.checksum mig.Checksum))) :=
  ⟨by decide, by decide, by decide,
   runMigrations_integrity_verification (fun s => "#" ++ s) (fun _ => true)
     [⟨"001_a.sql", false, "A2"⟩] ⟨[⟨"001_a", "#A"⟩], []⟩ (by decide) (by decide)⟩

/-- C6.  `applyPending` is idempotent: after a successful run, a second run
over the same unchanged directory applies zero additional scripts and returns
the very state the first run produced. -/
theorem runMigrations_idempotent (chk : String → String) (sqlOk : String → Bool)
    (dir : Directory) (st st1 : DBState) (n : Nat)
    (h : RunMigrations chk sqlOk dir st = (st1, .ok n)) :
    RunMigrations chk sqlOk dir st1 = (st1, .ok 0) := by
  simp only [RunMigrations] at h
  rcases hL : runPendingMigrations sqlOk (loadMigrationFiles chk dir)
    (getExecutedMigrations st) st 0 with ⟨s1, res⟩
  rw [hL] at h
  cases res with
  | error e => simp at h
  | ok c =>
    have h2 : (match verifyMigrationIntegrity (loadMigrationFiles chk dir) s1 with
      | some e => (s1, Except.error e)
      | none => (s1, Except.ok c)) = (st1, Except.ok n) := h
    cases hv : verifyMigrationIntegrity (loadMigrationFiles chk dir) s1 with
    | some e =>
      rw [hv] at h2
      simp at h2
    | none =>
      rw [hv] at h2
      have h3 : (s1, (Except.ok c : Except MigErr Nat)) = (st1, Except.ok n) := h2
      have hs1 : s1 = st1 := congrArg Prod.fst h3
      subst hs1
      have hcover := runPendingMigrations_ok_covers sqlOk (loadMigrationFiles chk dir)
        (getExecutedMigrations st) st 0 s1 c hL
      obtain ⟨d, hd⟩ := runPendingMigrations_ledger_extends sqlOk (loadMigrationFiles chk dir)
        (getExecutedMigrations st) st 0
      rw [hL] at hd
      simp only at hd
      have hall : ∀ m ∈ loadMigrationFiles chk dir,
          isMigrationExecuted m.Version (getExecutedMigrations s1) = true := by
        intro m hm
        rcases hcover m hm with hex | hmem
        · rw [isMigrationExecuted_eq_true_iff] at hex ⊢
          show m.Version ∈ s1.ledger.map (·.version)
          rw [hd, List.map_append]
          exact List.mem_append_left _ hex
        · rw [isMigrationExecuted_eq_true_iff]
          exact hmem
      have hloop2 := runPendingMigrations_all_executed sqlOk (loadMigrationFiles chk dir)
        (getExecutedMigrations s1) s1 0 hall
      simp only [RunMigrations]
      rw [hloop2]
      show (match verifyMigrationIntegrity (loadMigrationFiles chk dir) s1 with
        | some e => (s1, Except.error e)
        | none => (s1, Except.ok 0)) = (s1, Except.ok 0)
      rw [hv]

/-- Witness for C6: a successful two-script first run, after which the second
run applies zero scripts and leaves the ledger unchanged. -/
theorem runMigrations_idempotent_witness :
    RunMigrations (fun s => "#" ++ s) (fun _ => true)
        [⟨"001_a.sql", false, "A"⟩, ⟨"002_b.sql", false, "B"⟩] ⟨[], []⟩ =
      (⟨[⟨"001_a", "#A"⟩, ⟨"002_b", "#B"⟩], ["A", "B"]⟩, .ok 2) ∧
    RunMigrations (fun s => "#" ++ s) (fun _ => true)
        [⟨"001_a.sql", false, "A"⟩, ⟨"002_b.sql", false, "B"⟩]
        ⟨[⟨"001_a", "#A"⟩, ⟨"002_b", "#B"⟩], ["A", "B"]⟩ =
      (⟨[⟨"001_a", "#A"⟩, ⟨"002_b", "#B"⟩], ["A", "B"]⟩, .ok 0) :=
  ⟨by decide,
   runMigrations_idempotent (fun s => "#" ++ s) (fun _ => true)
     [⟨"001_a.sql", false, "A"⟩, ⟨"002_b.sql", false, "B"⟩] ⟨[], []⟩
     ⟨[⟨"001_a", "#A"⟩, ⟨"002_b", "#B"⟩], ["A", "B"]⟩ 2 (by decide)⟩

/-- Classifies a verification result as a checksum-mismatch failure for the
given version. -/
def mismatchFor (v : String) : Option MigErr → Bool
  | some (.checksumMismatch w _ _) => w == v
  | _ => false

/-- C7.  A ledger row whose stored checksum is the literal sentinel
`legacy_migration_no_checksum_available` never triggers a checksum-mismatch
failure for its version, whatever catalog (hence whatever current script
checksum) verification runs against.  Versions are distinct in the ledger
(primary key). -/
theorem verify_sentinel_never_mismatch (migs : List Migration) (st : DBState)
    (row : LedgerRow) (hnd : (st.ledger.map (·.version)).Nodup)
    (hrow : row ∈ st.ledger) (hsent : row.checksum = legacySentinel) :
    mismatchFor row.version (verifyMigrationIntegrity migs st) = false := by
  cases hv : verifyMigrationIntegrity migs st with
  | none => rfl
  | some e =>
    obtain ⟨row2, hrow2, hcase⟩ := verifyMigrationIntegrity_eq_some hv
    rcases hcase with ⟨-, rfl⟩ | ⟨cur, -, hsent2, -, rfl⟩
    · rfl
    · show (row2.version == row.version) = false
      rw [beq_eq_false_iff_ne]
      intro heq
      rw [ledgerRow_inj hnd hrow2 hrow heq] at hsent2
      exact hsent2 hsent

/-- Witness for C7: a sentinel row for an applied script whose current content
hashes to something entirely different; verification raises no mismatch for
it. -/
theorem verify_sentinel_never_mismatch_witness :
    ((((⟨[⟨"001_a", legacySentinel⟩], []⟩ : DBState)).ledger.map (·.version)).Nodup) ∧
    (⟨"001_a", legacySentinel⟩ : LedgerRow) ∈ (⟨[⟨"001_a", legacySentinel⟩], []⟩ : DBState).ledger ∧
    (⟨"001_a", legacySentinel⟩ : LedgerRow).checksum = legacySentinel ∧
    mismatchFor ("001_a")
      (verifyMigrationIntegrity [⟨"001_a", "001_a.sql", "A2", "#A2"⟩]
        ⟨[⟨"001_a", legacySentinel⟩], []⟩) = false :=
  ⟨by decide, by decide, by decide,
   verify_sentinel_never_mismatch [⟨"001_a", "001_a.sql", "A2", "#A2"⟩]
     ⟨[⟨"001_a", legacySentinel⟩], []⟩ ⟨"001_a", legacySentinel⟩
     (by decide) (by decide) (by decide)⟩

/-- Classifies an `executeMigration` result as a committed transaction. -/
def exceptIsOk : Except MigErr DBState → Bool
  | .ok _ => true
  | .error _ => false

/-- C9.  The ledger insert of `executeMigration` (the spec's `recordApplied`)
is an `INSERT` on the primary-key column: when a row for the version already
exists it returns an error and inserts nothing, the enclosing transaction
reports the duplicate error (when the script body itself ran) and never
commits, so the existing row's checksum and timestamp are never overwritten. -/
theorem recordApplied_duplicate_is_error (sqlOk : String → Bool) (mig : Migration)
    (st : DBState) (h : mig.Version ∈ st.ledger.map (·.version)) :
    insertLedger mig.Version mig.Checksum st = none ∧
    (sqlOk mig.SQLContent = true →
      executeMigration sqlOk mig st = .error (.recordError mig.Version)) ∧
    exceptIsOk (executeMigration sqlOk mig st) = false := by
  refine ⟨insertLedger_of_mem h, fun hs => executeMigration_dup hs h, ?_⟩
  cases hE : executeMigration sqlOk mig st with
  | error e => rfl
  | ok st2 => exact absurd h (executeMigration_ok_inv hE).2.1

/-- Witness for C9 on a ledger already holding the version being re-inserted. -/
theorem recordApplied_duplicate_is_error_witness :
    ("001_a" : String) ∈ ((⟨[⟨"001_a", "old"⟩], []⟩ : DBState)).ledger.map (·.version) ∧
    insertLedger ("001_a") ("#A")
      ⟨[⟨"001_a", "old"⟩], []⟩ = none ∧
    executeMigration (fun _ => true) ⟨"001_a", "001_a.sql", "A", "#A"⟩
      ⟨[⟨"001_a", "old"⟩], []⟩ = .error (.recordError ("001_a")) ∧
    exceptIsOk (executeMigration (fun _ => true) ⟨"001_a", "001_a.sql", "A", "#A"⟩
      ⟨[⟨"001_a", "old"⟩], []⟩) = false :=
  ⟨by decide,
   (recordApplied_duplicate_is_error (fun _ => true) ⟨"001_a", "001_a.sql", "A", "#A"⟩
     ⟨[⟨"001_a", "old"⟩], []⟩ (by decide)).1,
   (recordApplied_duplicate_is_error (fun _ => true) ⟨"001_a", "001_a.sql", "A", "#A"⟩
     ⟨[⟨"001_a", "old"⟩], []⟩ (by decide)).2.1 (by decide),
   (recordApplied_duplicate_is_error (fun _ => true) ⟨"001_a", "001_a.sql", "A", "#A"⟩
     ⟨[⟨"001_a", "old"⟩], []⟩ (by decide)).2.2⟩

/-- C10.  Catalog loading includes, as a forward migration, every regular file
whose name ends in `.sql` and does not contain `_down_`, with version =
filename minus the `.sql` suffix, whatever the prefix format — and only such
files.  In particular a file named `<version>_down.sql` (the very fallback
filename the rollback operations synthesize and read, which does not contain
`_down_`) satisfies the filter, enters the forward catalog, and when its
version is unapplied `applyPending` executes its body forward. -/
theorem loadMigrationFiles_forward_catalog (chk : String → String) (dir : Directory)
    (e : FSEntry) (he : e ∈ dir) (hdir : e.isDir = false)
    (hsql : strEndsWith e.name (".sql") = true)
    (hdown : strContains e.name ("_down_") = false) :
    (⟨trimSuffix e.name (".sql"), e.name, e.content, chk e.content⟩ : Migration) ∈
      loadMigrationFiles chk dir ∧
    (∀ m ∈ loadMigrationFiles chk dir,
      strEndsWith m.Filename (".sql") = true ∧ strContains m.Filename ("_down_") = false ∧
        m.Version = trimSuffix m.Filename (".sql")) ∧
    (∀ (sqlOk : String → Bool) (st : DBState),
      ((loadMigrationFiles chk dir).map (·.Version)).Nodup →
      isMigrationExecuted (trimSuffix e.name (".sql")) (getExecutedMigrations st) = false →
      (∀ m ∈ pendingMigrations chk dir st, sqlOk m.SQLContent = true) →
      e.content ∈ (RunMigrations chk sqlOk dir st).1.schemaLog) := by
  have hmem1 : (⟨trimSuffix e.name (".sql"), e.name, e.content, chk e.content⟩ : Migration) ∈
      loadMigrationFiles chk dir :=
    mem_loadMigrationFiles.mpr ⟨e, he, hdir, hsql, hdown, rfl⟩
  refine ⟨hmem1, ?_, ?_⟩
  · intro m hm
    obtain ⟨e2, -, -, hs2, hw2, hm2⟩ := mem_loadMigrationFiles.mp hm
    subst hm2
    exact ⟨hs2, hw2, rfl⟩
  · intro sqlOk st hnd hnotex hok
    have hpend : (⟨trimSuffix e.name (".sql"), e.name, e.content, chk e.content⟩ : Migration) ∈
        pendingMigrations chk dir st :=
      List.mem_filter.mpr ⟨hmem1, by simp [hnotex]⟩
    rw [runMigrations_state_eq chk sqlOk dir st hnd hok]
    show e.content ∈ (pendingFinalState chk dir st).schemaLog
    unfold pendingFinalState
    exact List.mem_append_right _ (List.mem_map.mpr ⟨_, hpend, rfl⟩)

/-- Witness for C10: the fallback file `001_a_down.sql` is loaded as forward
migration `001_a_down` and its body runs forward from an empty ledger. -/
theorem loadMigrationFiles_forward_catalog_witness :
    ((⟨"001_a_down.sql", false, "D"⟩ : FSEntry) ∈
      ([⟨"001_a_down.sql", false, "D"⟩] : Directory)) ∧
    ((⟨"001_a_down.sql", false, "D"⟩ : FSEntry).isDir = false) ∧
    (strEndsWith ("001_a_down.sql") (".sql") = true) ∧
    (strContains ("001_a_down.sql") ("_down_") = false) ∧
    ((⟨trimSuffix ("001_a_down.sql") (".sql"), "001_a_down.sql", "D",
        (fun s => "#" ++ s) ("D")⟩ : Migration) ∈
      loadMigrationFiles (fun s => "#" ++ s) [⟨"001_a_down.sql", false, "D"⟩] ∧
     (∀ m ∈ loadMigrationFiles (fun s => "#" ++ s) [⟨"001_a_down.sql", false, "D"⟩],
       strEndsWith m.Filename (".sql") = true ∧ strContains m.Filename ("_down_") = false ∧
         m.Version = trimSuffix m.Filename (".sql")) ∧
     (∀ (sqlOk : String → Bool) (st : DBState),
       ((loadMigrationFiles (fun s => "#" ++ s)
          [⟨"001_a_down.sql", false, "D"⟩]).map (·.Version)).Nodup →
       isMigrationExecuted (trimSuffix ("001_a_down.sql") (".sql"))
         (getExecutedMigrations st) = false →
       (∀ m ∈ pendingMigrations (fun s => "#" ++ s) [⟨"001_a_down.sql", false, "D"⟩] st,
         sqlOk m.SQLContent = true) →
       "D" ∈ (RunMigrations (fun s => "#" ++ s) sqlOk
         [⟨"001_a_down.sql", false, "D"⟩] st).1.schemaLog)) :=
  ⟨by decide, by decide, by decide, by decide,
   loadMigrationFiles_forward_catalog (fun s => "#" ++ s) [⟨"001_a_down.sql", false, "D"⟩]
     ⟨"001_a_down.sql", false, "D"⟩ (by decide) (by decide) (by decide) (by decide)⟩

/-- C5.  `rollbackLast` on an empty applied set is a no-op success; on any
failure the state (hence the ledger) is unchanged; and on a non-empty applied
set it targets exactly the lexically greatest applied version — when the run
succeeds it has executed that version's down-script body and deleted that
version's ledger row, both inside the single transaction whose commit produced
the final state. -/
theorem rollbackLast_semantics (sqlOk : String → Bool) (dir : Directory) (st : DBState) :
    (st.ledger = [] → RollbackLastMigration sqlOk dir st = (st, none)) ∧
    (∀ e, (RollbackLastMigration sqlOk dir st).2 = some e →
      (RollbackLastMigration sqlOk dir st).1 = st) ∧
    (st.ledger ≠ [] →
      (lastAppliedVersion (getExecutedMigrations st) ∈ getExecutedMigrations st ∧
        ∀ v ∈ getExecutedMigrations st,
          strLe v (lastAppliedVersion (getExecutedMigrations st)) = true) ∧
      ((RollbackLastMigration sqlOk dir st).2 = none →
        ∃ content,
          readFile dir (resolveDownFilename dir (lastAppliedVersion (getExecutedMigrations st))) =
            some content ∧
          sqlOk content = true ∧
          (RollbackLastMigration sqlOk dir st).1 =
            ⟨st.ledger.filter
              (fun r => !(r.version == lastAppliedVersion (getExecutedMigrations st))),
             st.schemaLog ++ [content]⟩)) := by
  refine ⟨?_, ?_, ?_⟩
  · intro h
    simp [RollbackLastMigration, getExecutedMigrations, h]
  · intro e he
    by_cases hemp : (getExecutedMigrations st).isEmpty = true
    · simp only [RollbackLastMigration] at he ⊢
      rw [if_pos hemp] at he
      simp at he
    · have hemp' : (getExecutedMigrations st).isEmpty = false := by
        simpa using hemp
      simp only [RollbackLastMigration] at he ⊢
      rw [if_neg (by simp [hemp'])] at he ⊢
      cases hR : rollbackOneMigration sqlOk dir
          (lastAppliedVersion (getExecutedMigrations st)) st with
      | error e2 => rfl
      | ok st1 =>
        rw [hR] at he
        simp at he
  · intro hne
    have hnex : getExecutedMigrations st ≠ [] := by
      intro hc
      exact hne (List.map_eq_nil_iff.mp hc)
    obtain ⟨hmem, hmax⟩ := lastAppliedVersion_spec hnex
    refine ⟨⟨hmem, hmax⟩, ?_⟩
    intro hnone
    have hemp' : (getExecutedMigrations st).isEmpty = false := by
      cases hex : getExecutedMigrations st with
      | nil => exact absurd hex hnex
      | cons a l => rfl
    simp only [RollbackLastMigration] at hnone ⊢
    rw [if_neg (by simp [hemp'])] at hnone ⊢
    cases hR : rollbackOneMigration sqlOk dir
        (lastAppliedVersion (getExecutedMigrations st)) st with
    | error e2 =>
      rw [hR] at hnone
      simp at hnone
    | ok st1 =>
      obtain ⟨content, hread, hsqlc, hst1⟩ := rollbackOneMigration_ok_inv hR
      refine ⟨content, hread, hsqlc, ?_⟩
      show st1 = _
      exact hst1

/-- Witness for C5: the empty-ledger no-op branch on a concrete state. -/
theorem rollbackLast_semantics_witness :
    RollbackLastMigration (fun _ => true) ([] : Directory) ⟨[], []⟩ = (⟨[], []⟩, none) :=
  (rollbackLast_semantics (fun _ => true) [] ⟨[], []⟩).1 rfl

/-- Counterexample to C4 as stated: ledger `{001_a, 002_b}`, target `""`, but
the directory only has the forward file for `001_a`.  `rollbackTo` reports
success after rolling back one migration, while the applied version `002_b`,
strictly greater than the target, is still in the ledger: the run does NOT
roll back every applied version above the target — versions missing from the
forward catalog are silently skipped. -/
theorem runDownMigrations_skips_noncatalog_cex :
    (RunDownMigrations (fun s => "#" ++ s) (fun _ => true)
        [⟨"001_a.sql", false, "A"⟩, ⟨"001_a_down_x.sql", false, "DA"⟩] ("")
        ⟨[⟨"001_a", "k1"⟩, ⟨"002_b", "k2"⟩], []⟩).2 = .ok 1 ∧
    ("002_b" : String) ∈ getExecutedMigrations ⟨[⟨"001_a", "k1"⟩, ⟨"002_b", "k2"⟩], []⟩ ∧
    strLt ("") ("002_b") = true ∧
    ("002_b" : String) ∈ (RunDownMigrations (fun s => "#" ++ s) (fun _ => true)
        [⟨"001_a.sql", false, "A"⟩, ⟨"001_a_down_x.sql", false, "DA"⟩] ("")
        ⟨[⟨"001_a", "k1"⟩, ⟨"002_b", "k2"⟩], []⟩).1.ledger.map (·.version) := by
  decide

/-- The candidates `rollbackTo` actually processes: the applied versions
strictly above the target that are present in the forward catalog, in
descending order. -/
def downCandidates (chk : String → String) (dir : Directory) (st : DBState)
    (target : String) : List Migration :=
  (List.insertionSort migGe (loadMigrationFiles chk dir)).filter fun m =>
    isMigrationExecuted m.Version (getExecutedMigrations st) && strLt target m.Version

/-- Classifies a run result as a failure. -/
def exceptResIsErr : Except MigErr Nat → Bool
  | .error _ => true
  | .ok _ => false

theorem downCandidates_eq_loop_filter (chk : String → String) (dir : Directory)
    (st : DBState) (target : String) :
    (List.insertionSort migGe (loadMigrationFiles chk dir)).filter
      (downLoopPred (getExecutedMigrations st) target) = downCandidates chk dir st target := by
  apply List.filter_congr
  intro m hm
  have hmem := loadMigrationFiles_no_down ((List.perm_insertionSort migGe _).mem_iff.mp hm)
  simp [downLoopPred, hmem]

/-- C4 (amended).  `rollbackTo(target)` (`RunDownMigrations`) rolls back, in
descending version order and each in its own transaction, exactly the applied
versions that are strictly greater than the target AND present in the forward
catalog (`downCandidates`); applied versions missing from the catalog are
skipped.  When every candidate's down step works the run deletes exactly the
candidates' rows and reports their count; when a candidate's step fails, the
run returns an error, the candidates already rolled back stay rolled back and
everything from the failed candidate on stays applied. -/
theorem runDownMigrations_rolls_back_catalog_candidates (chk : String → String)
    (sqlOk : String → Bool) (dir : Directory) (target : String) (st : DBState)
    (hnd : ((loadMigrationFiles chk dir).map (·.Version)).Nodup) :
    (((downCandidates chk dir st target).map (·.Version)).Pairwise
      (fun v w => strLt w v = true)) ∧
    ((∀ m ∈ downCandidates chk dir st target, downStepFails sqlOk dir m.Version = false) →
      RunDownMigrations chk sqlOk dir target st =
        (⟨st.ledger.filter (fun r =>
            !(memStr r.version ((downCandidates chk dir st target).map (·.Version)))),
          st.schemaLog ++ (downCandidates chk dir st target).map
            (fun m => downContent dir m.Version)⟩,
         .ok (downCandidates chk dir st target).length)) ∧
    (∀ c1 bad c2, downCandidates chk dir st target = c1 ++ bad :: c2 →
      (∀ m ∈ c1, downStepFails sqlOk dir m.Version = false) →
      downStepFails sqlOk dir bad.Version = true →
      (RunDownMigrations chk sqlOk dir target st).1 =
        ⟨st.ledger.filter (fun r => !(memStr r.version (c1.map (·.Version)))),
         st.schemaLog ++ c1.map (fun m => downContent dir m.Version)⟩ ∧
      exceptResIsErr (RunDownMigrations chk sqlOk dir target st).2 = true) := by
  have hbridge := downCandidates_eq_loop_filter chk dir st target
  refine ⟨?_, ?_, ?_⟩
  · have hsorted : (List.insertionSort migGe (loadMigrationFiles chk dir)).Pairwise migGe :=
      List.sorted_insertionSort migGe _
    have hcand : (downCandidates chk dir st target).Pairwise migGe := by
      rw [← hbridge]
      exact hsorted.filter _
    have hndL : ((List.insertionSort migGe (loadMigrationFiles chk dir)).map (·.Version)).Nodup :=
      (((List.perm_insertionSort migGe (loadMigrationFiles chk dir)).map _).nodup_iff).mpr hnd
    have hndc : ((downCandidates chk dir st target).map (·.Version)).Nodup := by
      rw [← hbridge]
      exact hndL.sublist ((List.filter_sublist _).map _)
    have hne : (downCandidates chk dir st target).Pairwise
        (fun a b : Migration => a.Version ≠ b.Version) := List.pairwise_map.mp hndc
    rw [List.pairwise_map]
    exact (hcand.and hne).imp fun hab => strLt_of_strLe_of_ne hab.1 (fun hc => hab.2 hc.symm)
  · intro hok
    rw [← hbridge] at hok
    have h := runDownLoop_ok sqlOk dir (getExecutedMigrations st) target
      (List.insertionSort migGe (loadMigrationFiles chk dir)) st 0 hok
    rw [hbridge, Nat.zero_add] at h
    simp only [RunDownMigrations]
    exact h
  · intro c1 bad c2 hsplit hc1 hbad
    obtain ⟨e, he⟩ := runDownLoop_fail sqlOk dir (getExecutedMigrations st) target
      (List.insertionSort migGe (loadMigrationFiles chk dir)) st 0 c1 bad c2
      (hbridge.trans hsplit) hc1 hbad
    constructor
    · simp only [RunDownMigrations]
      rw [he]
    · simp only [RunDownMigrations]
      rw [he]
      rfl

/-- Witness for C4 (amended): one applied catalog version above the target is
rolled back (deleted and its down body executed); the applied version missing
from the catalog stays. -/
theorem runDownMigrations_rolls_back_catalog_candidates_witness :
    (((loadMigrationFiles (fun s => "#" ++ s)
        [⟨"001_a.sql", false, "A"⟩, ⟨"001_a_down_x.sql", false, "DA"⟩]).map
          (·.Version)).Nodup) ∧
    (∀ m ∈ downCandidates (fun s => "#" ++ s)
        [⟨"001_a.sql", false, "A"⟩, ⟨"001_a_down_x.sql", false, "DA"⟩]
        ⟨[⟨"001_a", "k1"⟩, ⟨"002_b", "k2"⟩], []⟩ (""),
      downStepFails (fun _ => true)
        [⟨"001_a.sql", false, "A"⟩, ⟨"001_a_down_x.sql", false, "DA"⟩] m.Version = false) ∧
    RunDownMigrations (fun s => "#" ++ s) (fun _ => true)
        [⟨"001_a.sql", false, "A"⟩, ⟨"001_a_down_x.sql", false, "DA"⟩] ("")
        ⟨[⟨"001_a", "k1"⟩, ⟨"002_b", "k2"⟩], []⟩ =
      (⟨(⟨[⟨"001_a", "k1"⟩, ⟨"002_b", "k2"⟩], []⟩ : DBState).ledger.filter (fun r =>
          !(memStr r.version ((downCandidates (fun s => "#" ++ s)
            [⟨"001_a.sql", false, "A"⟩, ⟨"001_a_down_x.sql", false, "DA"⟩]
            ⟨[⟨"001_a", "k1"⟩, ⟨"002_b", "k2"⟩], []⟩ ("")).map (·.Version)))),
        [] ++ (downCandidates (fun s => "#" ++ s)
          [⟨"001_a.sql", false, "A"⟩, ⟨"001_a_down_x.sql", false, "DA"⟩]
          ⟨[⟨"001_a", "k1"⟩, ⟨"002_b", "k2"⟩], []⟩ ("")).map
            (fun m => downContent [⟨"001_a.sql", false, "A"⟩, ⟨"001_a_down_x.sql", false, "DA"⟩]
              m.Version)⟩,
       .ok (downCandidates (fun s => "#" ++ s)
        [⟨"001_a.sql", false, "A"⟩, ⟨"001_a_down_x.sql", false, "DA"⟩]
        ⟨[⟨"001_a", "k1"⟩, ⟨"002_b", "k2"⟩], []⟩ ("")).length) :=
  ⟨by decide, by decide,
   (runDownMigrations_rolls_back_catalog_candidates (fun s => "#" ++ s) (fun _ => true)
     [⟨"001_a.sql", false, "A"⟩, ⟨"001_a_down_x.sql", false, "DA"⟩] ("")
     ⟨[⟨"001_a", "k1"⟩, ⟨"002_b", "k2"⟩], []⟩ (by decide)).2.1 (by decide)⟩

/-- Counterexample to C8 as stated: the applied version `004_add_index` has
its reverse script present under the documented convention
(`004_down_add_index.sql`), yet rollback fails with a missing-file error: the
version is not one of the three built-in seed versions, the directory scan
looks for a down-marked file whose name contains the full version string —
and `004_down_add_index` does not contain `004_add_index` — so the synthesized
`004_add_index_down.sql` is read and is absent. -/
theorem rollbackLast_convention_down_missed_cex :
    RollbackLastMigration (fun _ => true)
        [⟨"004_add_index.sql", false, "U"⟩, ⟨"004_down_add_index.sql", false, "D"⟩]
        ⟨[⟨"004_add_index", "k"⟩], []⟩ =
      (⟨[⟨"004_add_index", "k"⟩], []⟩, some (.readFileError ("004_add_index_down.sql"))) := by
  decide

/-- The three versions special-cased by the down-script lookup. -/
def isBuiltinSeedVersion (v : String) : Bool :=
  v == "001_create_schema_migrations_table" || v == "002_create_users_table" ||
    v == "003_create_indexes"

/-- An existing regular file of the directory. -/
def hasFile (dir : Directory) (filename : String) : Prop :=
  ∃ e ∈ dir, e.name = filename ∧ e.isDir = false

instance (dir : Directory) (filename : String) : Decidable (hasFile dir filename) :=
  List.decidableBEx _ dir

/-- Classifies a rollback outcome as a missing/unreadable down-script file
failure. -/
def isReadErr : Option MigErr → Bool
  | some (.readFileError _) => true
  | _ => false

theorem resolveDownFilename_scan {dir : Directory} {v : String} {f : FSEntry}
    (h1 : (v == "001_create_schema_migrations_table") = false)
    (h2 : (v == "002_create_users_table") = false)
    (h3 : (v == "003_create_indexes") = false)
    (hf : dir.find? (fun file => strContains file.name ("_down_") &&
      strContains file.name v) = some f) :
    resolveDownFilename dir v = f.name := by
  unfold resolveDownFilename
  rw [if_neg (by simp [h1]), if_neg (by simp [h2]), if_neg (by simp [h3]), hf]

theorem resolveDownFilename_synth {dir : Directory} {v : String}
    (h1 : (v == "001_create_schema_migrations_table") = false)
    (h2 : (v == "002_create_users_table") = false)
    (h3 : (v == "003_create_indexes") = false)
    (hf : dir.find? (fun file => strContains file.name ("_down_") &&
      strContains file.name v) = none) :
    resolveDownFilename dir v = v ++ "_down.sql" := by
  unfold resolveDownFilename
  rw [if_neg (by simp [h1]), if_neg (by simp [h2]), if_neg (by simp [h3]), hf]

theorem rollbackOneMigration_error_inv {sqlOk : String → Bool} {dir : Directory} {v : String}
    {st : DBState} {e : MigErr} (h : rollbackOneMigration sqlOk dir v st = .error e) :
    (readFile dir (resolveDownFilename dir v) = none ∧
      e = .readFileError (resolveDownFilename dir v)) ∨
    (∃ content, readFile dir (resolveDownFilename dir v) = some content ∧
      sqlOk content = false ∧ e = .downSqlError v) := by
  unfold rollbackOneMigration at h
  cases hr : readFile dir (resolveDownFilename dir v) with
  | none =>
    rw [hr] at h
    simp only [Except.error.injEq] at h
    exact Or.inl ⟨rfl, h.symm⟩
  | some content =>
    rw [hr] at h
    have h2 : (match execSQL sqlOk content st with
      | none => Except.error (MigErr.downSqlError v)
      | some st1 => Except.ok (deleteLedger v st1)) = Except.error e := h
    by_cases hs : sqlOk content = true
    · rw [execSQL_of_ok hs] at h2
      exact absurd h2 (by simp)
    · rw [Bool.not_eq_true] at hs
      rw [execSQL_of_fail hs] at h2
      simp only [Except.error.injEq] at h2
      exact Or.inr ⟨content, rfl, hs, h2.symm⟩

/-- C8 (amended).  `rollbackLast` resolves the down script of the selected
version by exact filename for the three built-in seed versions, otherwise by
the first directory entry whose name contains both `_down_` and the full
version string, falling back to the synthesized `<version>_down.sql`; whenever
the case that applies names an existing regular file, rollback does not fail
with a missing-down-script (read) error.  A reverse script named under the
documented `NNN_down_description.sql` convention is found this way only for
the three built-in versions: for any other version its name does not contain
the version string, so only the fallback name can save the lookup (see the
counterexample). -/
theorem rollbackLast_down_resolution (sqlOk : String → Bool) (dir : Directory) (st : DBState)
    (hres :
      (lastAppliedVersion (getExecutedMigrations st) = "001_create_schema_migrations_table" ∧
        hasFile dir ("001_down_create_schema_migrations_table.sql")) ∨
      (lastAppliedVersion (getExecutedMigrations st) = "002_create_users_table" ∧
        hasFile dir ("002_down_create_users_table.sql")) ∨
      (lastAppliedVersion (getExecutedMigrations st) = "003_create_indexes" ∧
        hasFile dir ("003_down_create_indexes.sql")) ∨
      (isBuiltinSeedVersion (lastAppliedVersion (getExecutedMigrations st)) = false ∧
        ∃ f, dir.find? (fun file => strContains file.name ("_down_") &&
          strContains file.name (lastAppliedVersion (getExecutedMigrations st))) = some f ∧
          f.isDir = false) ∨
      (isBuiltinSeedVersion (lastAppliedVersion (getExecutedMigrations st)) = false ∧
        dir.find? (fun file => strContains file.name ("_down_") &&
          strContains file.name (lastAppliedVersion (getExecutedMigrations st))) = none ∧
        hasFile dir (lastAppliedVersion (getExecutedMigrations st) ++ "_down.sql"))) :
    isReadErr (RollbackLastMigration sqlOk dir st).2 = false := by
  have hread : ∃ content, readFile dir
      (resolveDownFilename dir (lastAppliedVersion (getExecutedMigrations st))) =
        some content := by
    rcases hres with ⟨hv, hfile⟩ | ⟨hv, hfile⟩ | ⟨hv, hfile⟩ |
      ⟨hb, f, hfind, hfdir⟩ | ⟨hb, hfind, hfile⟩
    · rw [hv, show resolveDownFilename dir ("001_create_schema_migrations_table") =
        "001_down_create_schema_migrations_table.sql" from rfl]
      exact readFile_isSome_of_mem hfile
    · rw [hv, show resolveDownFilename dir ("002_create_users_table") =
        "002_down_create_users_table.sql" from rfl]
      exact readFile_isSome_of_mem hfile
    · rw [hv, show resolveDownFilename dir ("003_create_indexes") =
        "003_down_create_indexes.sql" from rfl]
      exact readFile_isSome_of_mem hfile
    · simp only [isBuiltinSeedVersion, Bool.or_eq_false_iff] at hb
      rw [resolveDownFilename_scan hb.1.1 hb.1.2 hb.2 hfind]
      exact readFile_isSome_of_mem ⟨f, List.mem_of_find?_eq_some hfind, rfl, hfdir⟩
    · simp only [isBuiltinSeedVersion, Bool.or_eq_false_iff] at hb
      rw [resolveDownFilename_synth hb.1.1 hb.1.2 hb.2 hfind]
      exact readFile_isSome_of_mem hfile
  obtain ⟨content, hread⟩ := hread
  by_cases hemp : (getExecutedMigrations st).isEmpty = true
  · simp only [RollbackLastMigration]
    rw [if_pos hemp]
    rfl
  · have hemp' : (getExecutedMigrations st).isEmpty = false := by simpa using hemp
    simp only [RollbackLastMigration]
    rw [if_neg (by simp [hemp'])]
    cases hR : rollbackOneMigration sqlOk dir
        (lastAppliedVersion (getExecutedMigrations st)) st with
    | ok st1 => rfl
    | error e =>
      rcases rollbackOneMigration_error_inv hR with ⟨hn, -⟩ | ⟨c2, -, -, rfl⟩
      · rw [hread] at hn
        exact absurd hn (by simp)
      · rfl

/-- Witness for C8 (amended): the built-in seed version `002_create_users_table`
with its conventional down file present; rollback raises no missing-file
error. -/
theorem rollbackLast_down_resolution_witness :
    ((lastAppliedVersion (getExecutedMigrations ⟨[⟨"002_create_users_table", "k"⟩], []⟩) =
        "001_create_schema_migrations_table" ∧
      hasFile [⟨"002_create_users_table.sql", false, "U"⟩,
        ⟨"002_down_create_users_table.sql", false, "D"⟩]
        ("001_down_create_schema_migrations_table.sql")) ∨
     (lastAppliedVersion (getExecutedMigrations ⟨[⟨"002_create_users_table", "k"⟩], []⟩) =
        "002_create_users_table" ∧
      hasFile [⟨"002_create_users_table.sql", false, "U"⟩,
        ⟨"002_down_create_users_table.sql", false, "D"⟩]
        ("002_down_create_users_table.sql")) ∨
     (lastAppliedVersion (getExecutedMigrations ⟨[⟨"002_create_users_table", "k"⟩], []⟩) =
        "003_create_indexes" ∧
      hasFile [⟨"002_create_users_table.sql", false, "U"⟩,
        ⟨"002_down_create_users_table.sql", false, "D"⟩] ("003_down_create_indexes.sql")) ∨
     (isBuiltinSeedVersion (lastAppliedVersion
        (getExecutedMigrations ⟨[⟨"002_create_users_table", "k"⟩], []⟩)) = false ∧
      ∃ f, ([⟨"002_create_users_table.sql", false, "U"⟩,
          ⟨"002_down_create_users_table.sql", false, "D"⟩] : Directory).find?
        (fun file => strContains file.name ("_down_") &&
          strContains file.name (lastAppliedVersion
            (getExecutedMigrations ⟨[⟨"002_create_users_table", "k"⟩], []⟩))) =
        some f ∧ f.isDir = false) ∨
     (isBuiltinSeedVersion (lastAppliedVersion
        (getExecutedMigrations ⟨[⟨"002_create_users_table", "k"⟩], []⟩)) = false ∧
      ([⟨"002_create_users_table.sql", false, "U"⟩,
          ⟨"002_down_create_users_table.sql", false, "D"⟩] : Directory).find?
        (fun file => strContains file.name ("_down_") &&
          strContains file.name (lastAppliedVersion
            (getExecutedMigrations ⟨[⟨"002_create_users_table", "k"⟩], []⟩))) = none ∧
      hasFile [⟨"002_create_users_table.sql", false, "U"⟩,
        ⟨"002_down_create_users_table.sql", false, "D"⟩]
        (lastAppliedVersion (getExecutedMigrations ⟨[⟨"002_create_users_table", "k"⟩], []⟩) ++
          "_down.sql"))) ∧
    isReadErr (RollbackLastMigration (fun _ => true)
      [⟨"002_create_users_table.sql", false, "U"⟩,
       ⟨"002_down_create_users_table.sql", false, "D"⟩]
      ⟨[⟨"002_create_users_table", "k"⟩], []⟩).2 = false :=
  ⟨Or.inr (Or.inl ⟨by decide, by decide⟩),
   rollbackLast_down_resolution (fun _ => true)
     [⟨"002_create_users_table.sql", false, "U"⟩,
      ⟨"002_down_create_users_table.sql", false, "D"⟩]
     ⟨[⟨"002_create_users_table", "k"⟩], []⟩ (Or.inr (Or.inl ⟨by decide, by decide⟩))⟩
